import Mathlib

/-!
Verification development for the bar-driven trading simulation engine:
indicator pipeline (`indicators.py`), strategy state machine
(`strategies.py`) and summary aggregation (`backtest.py`).

Numbers are embedded as exact rationals (`ℚ`); an undefined (NaN) value is
embedded as `none : Option ℚ`, and a comparison against an undefined value
evaluates to `false`, mirroring IEEE NaN comparison semantics used by the
source.  Integer truncation follows the Python builtins used by the source
(`math.floor` and `int`).
-/

namespace Trading

/-- Maximum of a list of rationals, `none` on the empty list
(the value of an empty rolling window). -/
def listMax : List ℚ → Option ℚ
  | [] => none
  | x :: xs => some (xs.foldl max x)

/-- Minimum of a list of rationals, `none` on the empty list. -/
def listMin : List ℚ → Option ℚ
  | [] => none
  | x :: xs => some (xs.foldl min x)

/-- The slice of `xs` seen by a `pandas` rolling window of size `w` with
`min_periods=1` at index `i`: indices `max 0 (i+1-w) … i`. -/
def windowSlice (xs : List ℚ) (w i : ℕ) : List ℚ :=
  (xs.take (i + 1)).drop (i + 1 - w)

/-- `High.rolling(window=order, min_periods=1).max()` from
`find_swing_high_low` in `indicators.py`. -/
def rollingMax (xs : List ℚ) (w : ℕ) : List (Option ℚ) :=
  (List.range xs.length).map (fun i => listMax (windowSlice xs w i))

/-- `Low.rolling(window=order, min_periods=1).min()` from
`find_swing_high_low` in `indicators.py`. -/
def rollingMin (xs : List ℚ) (w : ℕ) : List (Option ℚ) :=
  (List.range xs.length).map (fun i => listMin (windowSlice xs w i))

/-- `.shift(1)` on a series: index 0 becomes undefined, index `i` takes the
value previously at `i-1`; the length is unchanged. -/
def shiftOne (xs : List (Option ℚ)) : List (Option ℚ) :=
  (none :: xs).take xs.length

/-- `swing_high` column of `find_swing_high_low`:
rolling max of High over `order` bars, shifted by one bar. -/
def swing_high (highs : List ℚ) (order : ℕ) : List (Option ℚ) :=
  shiftOne (rollingMax highs order)

/-- `swing_low` column of `find_swing_high_low`:
rolling min of Low over `order` bars, shifted by one bar. -/
def swing_low (lows : List ℚ) (order : ℕ) : List (Option ℚ) :=
  shiftOne (rollingMin lows order)

/-- `compute_smma` from `indicators.py`: undefined below index `period-1`,
seeded with the simple average of the first `period` source values, then
`smma[i] = (smma[i-1]*(period-1) + src[i]) / period`.  All values are
undefined when the series is shorter than `period`. -/
def smma (src : List ℚ) (period : ℕ) : ℕ → Option ℚ
  | 0 =>
    if period ≤ src.length ∧ period = 1 then
      some ((src.take period).sum / (period : ℚ))
    else none
  | i + 1 =>
    if period ≤ src.length then
      if i + 2 < period then none
      else if i + 2 = period then some ((src.take period).sum / (period : ℚ))
      else if i + 1 < src.length then
        (smma src period i).map
          (fun prev => (prev * ((period : ℚ) - 1) + src.getD (i + 1) 0) / (period : ℚ))
      else none
    else none

/-- Python `int(...)` on a rational: truncation toward zero. -/
def pyInt (q : ℚ) : ℤ := if q < 0 then ⌈q⌉ else ⌊q⌋

/-- `GaussianKijunStrategy.calculate_size` from `strategies.py`:
risk-percentage sizing with a zero-distance guard and a floor to an
integer contract count, clamped at 0. -/
def calculate_size (equity risk_pct entry stop contract_multiplier : ℚ) : ℤ :=
  let risk_amount := equity * risk_pct
  let distance := |entry - stop|
  if distance ≤ 0 then 0
  else max 0 ⌊risk_amount / (distance * contract_multiplier)⌋

/-- Total P&L of winning closed trades (`won.pnl.total` aggregate consumed
by `run_backtest`): the sum of the strictly positive trade P&Ls. -/
def wonTotal (pnls : List ℚ) : ℚ := (pnls.filter (fun p => decide (0 < p))).sum

/-- Total P&L of losing closed trades (`lost.pnl.total` aggregate):
the sum of the strictly negative trade P&Ls. -/
def lostTotal (pnls : List ℚ) : ℚ := (pnls.filter (fun p => decide (p < 0))).sum

/-- Number of winning closed trades (`won.total`). -/
def wonCount (pnls : List ℚ) : ℕ := (pnls.filter (fun p => decide (0 < p))).length

/-- Number of closed trades (`total.closed`). -/
def totalTrades (pnls : List ℚ) : ℕ := pnls.length

/-- The profit-factor value of the run summary: a rational, or positive
infinity (Python `float('inf')`). -/
inductive PFactor where
  | val : ℚ → PFactor
  | posInf : PFactor
deriving DecidableEq

/-- `profit_factor` computed in `run_backtest` (`backtest.py`): winning
P&L divided by the absolute losing P&L, `inf` when the losing total is 0. -/
def profit_factor (pnls : List ℚ) : PFactor :=
  if lostTotal pnls ≠ 0 then PFactor.val (wonTotal pnls / |lostTotal pnls|)
  else PFactor.posInf

/-- `percent_profitable` computed in `run_backtest`: share of winners when
there are closed trades, otherwise 0. -/
def percent_profitable (pnls : List ℚ) : ℚ :=
  if 0 < totalTrades pnls then (wonCount pnls : ℚ) / (totalTrades pnls : ℚ) * 100
  else 0

/-- A closed-trade record as stored by `TradeLogger.notify_trade`
(`backtest.py`), restricted to the price/P&L fields. -/
structure LoggedTrade where
  entry_price : ℚ
  exit_price : ℚ
  size : ℚ
  pnl : ℚ
  pnl_percent : ℚ
deriving DecidableEq

/-- The record appended by `TradeLogger.notify_trade` for a closed trade:
`exit_price = entry_price + (pnl / size if size else 0)` and
`pnl_percent = pnl / (entry_price * size) * 100 if size else 0`. -/
def notify_trade_closed (entry_price size pnl : ℚ) : LoggedTrade :=
  { entry_price := entry_price
    exit_price := entry_price + (if size ≠ 0 then pnl / size else 0)
    size := size
    pnl := pnl
    pnl_percent := if size ≠ 0 then pnl / (entry_price * size) * 100 else 0 }

/-! ### The strategy state machine (`GaussianKijunStrategy` in `strategies.py`)

One bar of the feed, carrying the raw prices and the indicator values the
strategy reads on that bar (`data_extras` lines).  `gauss_prev` / `vapi_prev`
are the previous bar's values (`[-1]` access in `next`).  Market orders are
modelled as filling at the decision bar (the spec's broker model: fills occur
at decision-bar prices); a submitted partial take-profit limit order is kept
as the pending `exit_order` of the state. -/

/-- One processed bar with the indicator values consulted by `next`. -/
structure Bar where
  date : ℕ
  close : ℚ
  high : ℚ
  low : ℚ
  gauss : Option ℚ
  gauss_prev : Option ℚ
  kijun : Option ℚ
  vapi : Option ℚ
  vapi_prev : Option ℚ
  adx : Option ℚ
  smma : Option ℚ
  atr : Option ℚ
  swing_low : Option ℚ
  swing_high : Option ℚ
deriving DecidableEq

/-- The trading parameters of `TradingConfig` consulted by the strategy. -/
structure TCfg where
  min_bars : ℕ
  adx_threshold : ℚ
  max_trades_per_day : ℕ
  tp_r_multiple : ℚ
  trailing_atr_mult : ℚ
  risk_pct : ℚ
  contract_multiplier : ℚ
  fixed_position_size : ℚ
deriving DecidableEq

/-- The mutable per-run state of `GaussianKijunStrategy` together with the
broker position size (`position > 0` long, `< 0` short, `= 0` flat). -/
structure StratState where
  today : Option ℕ
  trades_today : ℕ
  entry_price : Option ℚ
  stop_price : Option ℚ
  initial_atr : Option ℚ
  entry_risk : Option ℚ
  tp_price : Option ℚ
  breakeven_active : Bool
  highest_since_entry : Option ℚ
  lowest_since_entry : Option ℚ
  close_reason : String
  exit_order : Option (ℤ × ℚ)
  position : ℤ
deriving DecidableEq

/-- The strategy state at the start of a run. -/
def initState : StratState :=
  { today := none, trades_today := 0, entry_price := none, stop_price := none
    initial_atr := none, entry_risk := none, tp_price := none
    breakeven_active := false, highest_since_entry := none
    lowest_since_entry := none, close_reason := "", exit_order := none
    position := 0 }

/-- Float comparison `x < y` under NaN semantics: false when either side is
undefined. -/
def oLT : Option ℚ → Option ℚ → Bool
  | some a, some b => decide (a < b)
  | _, _ => false

/-- Daily counter reset at the top of `next`: when the bar's trading date
differs from the last seen date, remember it and zero `trades_today`. -/
def resetToday (s : StratState) (b : Bar) : StratState :=
  if s.today = some b.date then s
  else { s with today := some b.date, trades_today := 0 }

/-- `_determine_size`: fixed-USD sizing when configured positive, otherwise
risk-based `calculate_size`. -/
def determine_size (cfg : TCfg) (equity entry stop : ℚ) : ℤ :=
  if 0 < cfg.fixed_position_size then max 1 (pyInt (cfg.fixed_position_size / entry))
  else calculate_size equity cfg.risk_pct entry stop cfg.contract_multiplier

/-- The LONG entry condition of `next` (comparisons are NaN-false). -/
def longCond (b : Bar) : Bool :=
  oLT b.gauss_prev b.gauss && oLT b.vapi_prev b.vapi &&
    oLT b.smma (some b.close) && oLT b.kijun (some b.close) &&
    oLT b.swing_low (some b.close)

/-- The SHORT entry condition of `next`: note that the negations
`not gauss_up` / `not vapi_up` are also satisfied when the compared
indicator value is undefined. -/
def shortCond (b : Bar) : Bool :=
  !(oLT b.gauss_prev b.gauss) && !(oLT b.vapi_prev b.vapi) &&
    oLT (some b.close) b.smma && oLT (some b.close) b.kijun &&
    oLT (some b.close) b.swing_high

/-- `_enter_long`: record entry price, stop at the swing low, initial ATR,
risk, TP at `+tp_r_multiple*R`, and bump the daily counter. -/
def enterLong (cfg : TCfg) (s : StratState) (b : Bar) (size : ℤ) : StratState :=
  let risk := b.close - b.swing_low.getD 0
  { s with position := size
           entry_price := some b.close
           stop_price := b.swing_low
           initial_atr := b.atr
           entry_risk := some risk
           tp_price := some (b.close + cfg.tp_r_multiple * risk)
           breakeven_active := false
           highest_since_entry := some b.close
           trades_today := s.trades_today + 1 }

/-- `_enter_short`: mirror of `enterLong` with a fixed `0.5R` TP. -/
def enterShort (s : StratState) (b : Bar) (size : ℤ) : StratState :=
  let risk := b.swing_high.getD 0 - b.close
  { s with position := -size
           entry_price := some b.close
           stop_price := b.swing_high
           initial_atr := b.atr
           entry_risk := some risk
           tp_price := some (b.close - (1 / 2) * risk)
           breakeven_active := false
           lowest_since_entry := some b.close
           trades_today := s.trades_today + 1 }

/-- `self.highest_since_entry or self.entry_price`: Python `or` falls back to
the entry price when the stored extreme is `None` or the falsy `0.0`. -/
def hbase (s : StratState) : ℚ :=
  match s.highest_since_entry with
  | some h => if h = 0 then s.entry_price.getD 0 else h
  | none => s.entry_price.getD 0

/-- `self.lowest_since_entry or self.entry_price` (see `hbase`). -/
def lbase (s : StratState) : ℚ :=
  match s.lowest_since_entry with
  | some l => if l = 0 then s.entry_price.getD 0 else l
  | none => s.entry_price.getD 0

/-- Breakeven block for a long: at `close ≥ entry + 0.4R`, if not yet
latched, set the stop to the entry price and latch. -/
def beLong (s : StratState) (close : ℚ) : StratState :=
  if close ≥ s.entry_price.getD 0 + (2 / 5) * s.entry_risk.getD 0 ∧
      s.breakeven_active = false then
    { s with stop_price := s.entry_price, breakeven_active := true }
  else s

/-- Trailing block for a long: candidate `highest - initial_atr * mult`,
adopted only when it exceeds the current stop. -/
def trailLong (cfg : TCfg) (s : StratState) : StratState :=
  match s.initial_atr with
  | none => s
  | some a =>
    let trail := s.highest_since_entry.getD 0 - a * cfg.trailing_atr_mult
    if trail > s.stop_price.getD 0 then { s with stop_price := some trail } else s

/-- Partial take-profit block for a long: when the bar's high touches the TP
and no partial order is pending, submit a limit sell for `floor(0.4*size)`
contracts — only when that floor is positive. -/
def tpLong (s : StratState) (high : ℚ) : StratState :=
  match s.tp_price with
  | none => s
  | some tp =>
    if high ≥ tp ∧ s.exit_order = none then
      let tp_size : ℤ := ⌊(s.position.natAbs : ℚ) * (2 / 5)⌋
      if 0 < tp_size then { s with exit_order := some (tp_size, tp) } else s
    else s

/-- Stop-loss block for a long: at `close ≤ stop`, with no reason recorded
yet, close the whole position and record the stop-loss reason. -/
def slLong (s : StratState) (close : ℚ) : StratState :=
  if close ≤ s.stop_price.getD 0 ∧ s.close_reason = "" then
    { s with position := 0, close_reason := "Stop loss LONG" }
  else s

/-- Breakeven block for a short (mirror of `beLong`). -/
def beShort (s : StratState) (close : ℚ) : StratState :=
  if close ≤ s.entry_price.getD 0 - (2 / 5) * s.entry_risk.getD 0 ∧
      s.breakeven_active = false then
    { s with stop_price := s.entry_price, breakeven_active := true }
  else s

/-- Trailing block for a short (mirror of `trailLong`). -/
def trailShort (cfg : TCfg) (s : StratState) : StratState :=
  match s.initial_atr with
  | none => s
  | some a =>
    let trail := s.lowest_since_entry.getD 0 + a * cfg.trailing_atr_mult
    if trail < s.stop_price.getD 0 then { s with stop_price := some trail } else s

/-- Partial take-profit block for a short (mirror of `tpLong`, triggered by
the bar's low). -/
def tpShort (s : StratState) (low : ℚ) : StratState :=
  match s.tp_price with
  | none => s
  | some tp =>
    if low ≤ tp ∧ s.exit_order = none then
      let tp_size : ℤ := ⌊(s.position.natAbs : ℚ) * (2 / 5)⌋
      if 0 < tp_size then { s with exit_order := some (tp_size, tp) } else s
    else s

/-- Stop-loss block for a short (mirror of `slLong`). -/
def slShort (s : StratState) (close : ℚ) : StratState :=
  if close ≥ s.stop_price.getD 0 ∧ s.close_reason = "" then
    { s with position := 0, close_reason := "Stop loss SHORT" }
  else s

/-- `_update_position_management` for a long position: update the extreme,
then breakeven, trailing, partial TP and stop-loss in source order. -/
def manageLong (cfg : TCfg) (s : StratState) (b : Bar) : StratState :=
  let s1 := { s with highest_since_entry := some (max (hbase s) b.high) }
  slLong (tpLong (trailLong cfg (beLong s1 b.close)) b.high) b.close

/-- `_update_position_management` for a short position. -/
def manageShort (cfg : TCfg) (s : StratState) (b : Bar) : StratState :=
  let s1 := { s with lowest_since_entry := some (min (lbase s) b.low) }
  slShort (tpShort (trailShort cfg (beShort s1 b.close)) b.low) b.close

/-- The trend-break exit checks at the bottom of `next`: close under/over
kijun closes the position when no close reason has been recorded yet. -/
def trendbreakCheck (s : StratState) (b : Bar) : StratState :=
  if 0 < s.position ∧ oLT (some b.close) b.kijun = true ∧ s.close_reason = "" then
    { s with position := 0, close_reason := "Trendbreak LONG" }
  else if s.position < 0 ∧ oLT b.kijun (some b.close) = true ∧ s.close_reason = "" then
    { s with position := 0, close_reason := "Trendbreak SHORT" }
  else s

/-- The flat branch of `next`: clear the pending order and close reason, then
try the LONG entry and, failing that, the SHORT entry (the conditions are
mutually exclusive). -/
def flatBranch (cfg : TCfg) (equity : ℚ) (s : StratState) (b : Bar) : StratState :=
  let s1 := { s with exit_order := none, close_reason := "" }
  if longCond b = true ∧
      0 < determine_size cfg equity b.close (b.swing_low.getD 0) then
    enterLong cfg s1 b (determine_size cfg equity b.close (b.swing_low.getD 0))
  else if shortCond b = true ∧
      0 < determine_size cfg equity b.close (b.swing_high.getD 0) then
    enterShort s1 b (determine_size cfg equity b.close (b.swing_high.getD 0))
  else s1

/-- The open-position branch of `next`: management (skipped when the entry
bookkeeping fields are unset), then the trend-break checks. -/
def openBranch (cfg : TCfg) (s : StratState) (b : Bar) : StratState :=
  let s1 :=
    if s.entry_price = none ∨ s.stop_price = none ∨ s.entry_risk = none then s
    else if 0 < s.position then manageLong cfg s b else manageShort cfg s b
  trendbreakCheck s1 b

/-- One call of `GaussianKijunStrategy.next` on a bar.  `nbars` is
`len(self.data)`, the number of bars seen so far including this one;
`equity` is `broker.getvalue()` consulted by risk sizing. -/
def step (cfg : TCfg) (equity : ℚ) (s : StratState) (nbars : ℕ) (b : Bar) : StratState :=
  let s0 := resetToday s b
  if nbars < cfg.min_bars then s0
  else
    match b.adx with
    | none => s0
    | some adx =>
      if adx ≤ cfg.adx_threshold then s0
      else if cfg.max_trades_per_day ≤ s0.trades_today then s0
      else if s0.position = 0 then flatBranch cfg equity s0 b
      else openBranch cfg s0 b

/-- The stop value a long position carries at the stop-loss check of a bar:
the stored stop after that bar's breakeven and trailing updates. -/
def managedStopLong (cfg : TCfg) (s : StratState) (b : Bar) : ℚ :=
  (trailLong cfg
    (beLong { s with highest_since_entry := some (max (hbase s) b.high) } b.close)).stop_price.getD 0

/-- The stop value a short position carries at the stop-loss check of a bar. -/
def managedStopShort (cfg : TCfg) (s : StratState) (b : Bar) : ℚ :=
  (trailShort cfg
    (beShort { s with lowest_since_entry := some (min (lbase s) b.low) } b.close)).stop_price.getD 0

/-- The daily counter as seen after the reset at the top of `next`. -/
def baseCount (s : StratState) (b : Bar) : ℕ :=
  if s.today = some b.date then s.trades_today else 0

/-- `true` when processing bar `b` opened a new position. -/
def entered (cfg : TCfg) (equity : ℚ) (s : StratState) (nbars : ℕ) (b : Bar) : Bool :=
  decide (s.position = 0) && decide ((step cfg equity s nbars b).position ≠ 0)

/-- Number of entries taken on trading date `d` while processing `bars` from
state `s`, bar `n+1` being the next bar count. -/
def entriesOn (cfg : TCfg) (equity : ℚ) (d : ℕ) :
    StratState → ℕ → List Bar → ℕ
  | _, _, [] => 0
  | s, n, b :: bs =>
    (if b.date = d ∧ entered cfg equity s (n + 1) b = true then 1 else 0) +
      entriesOn cfg equity d (step cfg equity s (n + 1) b) (n + 1) bs

/-- `true` when processing bar `b` submitted the partial take-profit order. -/
def submittedTP (cfg : TCfg) (equity : ℚ) (s : StratState) (nbars : ℕ) (b : Bar) : Bool :=
  decide (s.exit_order = none) &&
    decide ((step cfg equity s nbars b).exit_order ≠ none)

/-- Number of partial take-profit submissions while processing `bars`. -/
def tpSubmitCount (cfg : TCfg) (equity : ℚ) :
    StratState → ℕ → List Bar → ℕ
  | _, _, [] => 0
  | s, n, b :: bs =>
    (if submittedTP cfg equity s (n + 1) b = true then 1 else 0) +
      tpSubmitCount cfg equity (step cfg equity s (n + 1) b) (n + 1) bs

/-- The position stays open (nonzero) after every bar of `bars`. -/
def openThroughout (cfg : TCfg) (equity : ℚ) :
    StratState → ℕ → List Bar → Prop
  | _, _, [] => True
  | s, n, b :: bs =>
    (step cfg equity s (n + 1) b).position ≠ 0 ∧
      openThroughout cfg equity (step cfg equity s (n + 1) b) (n + 1) bs

/-- Inductive invariant tying an elevated stop to the trailing formula: while
a long position's stop sits above the entry price it was produced by the
trailing rule, so it is dominated by `extreme - initial_atr * mult`
(mirrored for shorts), and the recorded entry price is positive. -/
def StopInv (cfg : TCfg) (s : StratState) : Prop :=
  (s.position ≠ 0 → ∀ ep, s.entry_price = some ep → 0 < ep) ∧
  (0 < s.position → ∀ sp ep, s.stop_price = some sp → s.entry_price = some ep →
    ep < sp → ∃ a, s.initial_atr = some a ∧ sp + a * cfg.trailing_atr_mult ≤ hbase s) ∧
  (s.position < 0 → ∀ sp ep, s.stop_price = some sp → s.entry_price = some ep →
    sp < ep → ∃ a, s.initial_atr = some a ∧ lbase s + a * cfg.trailing_atr_mult ≤ sp)

/-! ### Helper lemmas -/

lemma sum_const_list {l : List ℚ} {V : ℚ} (h : ∀ x ∈ l, x = V) :
    l.sum = l.length * V := by
  induction l with
  | nil => simp
  | cons x xs ih =>
    simp only [List.sum_cons, List.length_cons]
    rw [h x (List.mem_cons_self x xs), ih (fun y hy => h y (List.mem_cons_of_mem x hy))]
    push_cast
    ring

lemma rollingMax_length (xs : List ℚ) (w : ℕ) : (rollingMax xs w).length = xs.length := by
  simp [rollingMax]

lemma rollingMin_length (xs : List ℚ) (w : ℕ) : (rollingMin xs w).length = xs.length := by
  simp [rollingMin]

lemma shiftOne_get (xs : List (Option ℚ)) (j : ℕ) (h : j + 1 < xs.length) :
    (shiftOne xs).get? (j + 1) = xs.get? j := by
  unfold shiftOne
  rw [List.get?_take h]
  rfl

lemma shiftOne_get_zero (xs : List (Option ℚ)) (h : 0 < xs.length) :
    (shiftOne xs).get? 0 = some none := by
  unfold shiftOne
  rw [List.get?_take h]
  rfl

lemma rollingMax_get (xs : List ℚ) (w j : ℕ) (h : j < xs.length) :
    (rollingMax xs w).get? j = some (listMax (windowSlice xs w j)) := by
  unfold rollingMax
  rw [List.get?_map, List.get?_range h]
  rfl

lemma rollingMin_get (xs : List ℚ) (w j : ℕ) (h : j < xs.length) :
    (rollingMin xs w).get? j = some (listMin (windowSlice xs w j)) := by
  unfold rollingMin
  rw [List.get?_map, List.get?_range h]
  rfl

lemma swing_high_get (xs : List ℚ) (order i : ℕ) (h1 : 1 ≤ i) (hi : i < xs.length) :
    (swing_high xs order).get? i = some (listMax ((xs.take i).drop (i - order))) := by
  obtain ⟨j, rfl⟩ : ∃ j, i = j + 1 := ⟨i - 1, by omega⟩
  have hlen : j + 1 < (rollingMax xs order).length := by rwa [rollingMax_length]
  rw [swing_high, shiftOne_get _ _ hlen, rollingMax_get xs order j (by omega)]
  rfl

lemma swing_low_get (xs : List ℚ) (order i : ℕ) (h1 : 1 ≤ i) (hi : i < xs.length) :
    (swing_low xs order).get? i = some (listMin ((xs.take i).drop (i - order))) := by
  obtain ⟨j, rfl⟩ : ∃ j, i = j + 1 := ⟨i - 1, by omega⟩
  have hlen : j + 1 < (rollingMin xs order).length := by rwa [rollingMin_length]
  rw [swing_low, shiftOne_get _ _ hlen, rollingMin_get xs order j (by omega)]
  rfl

/-! ### Claim theorems: indicator pipeline -/

/-- C1: for every index `i ≥ 1`, `swing_high[i]` is the maximum of High over
the window of at most `order` bars ending at index `i-1` (mirror for
`swing_low` over Low); the values at index 0 are undefined; and the values at
index `i` depend only on bars with index `< i`, so changing any bar at index
`≥ i` leaves them unchanged. -/
theorem C1_swing (highs lows highs2 lows2 : List ℚ) (order i : ℕ)
    (h1 : 1 ≤ i) (hih : i < highs.length) (hil : i < lows.length)
    (e2h : highs2.length = highs.length) (e2l : lows2.length = lows.length)
    (p2h : highs2.take i = highs.take i) (p2l : lows2.take i = lows.take i) :
    (swing_high highs order).get? i =
      some (listMax ((highs.take i).drop (i - order))) ∧
    (swing_low lows order).get? i =
      some (listMin ((lows.take i).drop (i - order))) ∧
    (swing_high highs2 order).get? i = (swing_high highs order).get? i ∧
    (swing_low lows2 order).get? i = (swing_low lows order).get? i ∧
    (swing_high highs order).get? 0 = some none ∧
    (swing_low lows order).get? 0 = some none := by
  have hih2 : i < highs2.length := by omega
  have hil2 : i < lows2.length := by omega
  refine ⟨swing_high_get highs order i h1 hih, swing_low_get lows order i h1 hil,
    ?_, ?_, ?_, ?_⟩
  · rw [swing_high_get highs2 order i h1 hih2, swing_high_get highs order i h1 hih, p2h]
  · rw [swing_low_get lows2 order i h1 hil2, swing_low_get lows order i h1 hil, p2l]
  · exact shiftOne_get_zero _ (by rw [rollingMax_length]; omega)
  · exact shiftOne_get_zero _ (by rw [rollingMin_length]; omega)

/-- Witness for C1 at a concrete input. -/
theorem C1_swing_witness :
    (swing_high [(1 : ℚ), 2, 4] 2).get? 2 =
      some (listMax (([(1 : ℚ), 2, 4].take 2).drop (2 - 2))) ∧
    (swing_high [(1 : ℚ), 2, 9] 2).get? 2 = (swing_high [(1 : ℚ), 2, 4] 2).get? 2 := by
  have h := C1_swing [1, 2, 4] [5, 6, 7] [1, 2, 9] [5, 6, 8] 2 2
    (by norm_num) (by norm_num) (by norm_num) rfl rfl rfl rfl
  exact ⟨h.1, h.2.2.1⟩

/-- C6: the SMMA of period `N` is undefined below index `N-1`, equals the
simple average of the first `N` source values at index `N-1`, satisfies
`smma[i] = (smma[i-1]*(N-1) + src[i]) / N` for `N ≤ i < len`, and a constant
series of value `V` is a fixed point: `smma[i] = V` for all `i ≥ N-1`. -/
theorem C6_smma (src : List ℚ) (N : ℕ) (hN : 1 ≤ N) (hlen : N ≤ src.length) :
    (∀ i, i + 1 < N → smma src N i = none) ∧
    smma src N (N - 1) = some ((src.take N).sum / (N : ℚ)) ∧
    (∀ i, N ≤ i → i < src.length →
      smma src N i = (smma src N (i - 1)).map
        (fun prev => (prev * ((N : ℚ) - 1) + src.getD i 0) / (N : ℚ))) ∧
    (∀ V, (∀ x ∈ src, x = V) →
      ∀ i, N - 1 ≤ i → i < src.length → smma src N i = some V) := by
  have hN0 : (N : ℚ) ≠ 0 := Nat.cast_ne_zero.mpr (by omega)
  have hseed : smma src N (N - 1) = some ((src.take N).sum / (N : ℚ)) := by
    cases N with
    | zero => omega
    | succ m =>
      cases m with
      | zero => simp [smma, hlen]
      | succ k =>
        show smma src (k + 2) (k + 1) = _
        simp only [smma]
        rw [if_pos hlen, if_neg (by omega)]
        simp
        ring_nf
  have hrec : ∀ i, N ≤ i → i < src.length →
      smma src N i = (smma src N (i - 1)).map
        (fun prev => (prev * ((N : ℚ) - 1) + src.getD i 0) / (N : ℚ)) := by
    intro i hiN hilen
    cases i with
    | zero => omega
    | succ j =>
      simp only [smma]
      rw [if_pos hlen, if_neg (by omega), if_neg (by omega), if_pos hilen]
      rfl
  refine ⟨?_, hseed, hrec, ?_⟩
  · intro i hi
    cases i with
    | zero =>
      simp only [smma]
      rw [if_neg (by omega)]
    | succ j =>
      simp only [smma]
      rw [if_pos hlen, if_pos (by omega)]
  · intro V hconst i hge
    induction i, hge using Nat.le_induction with
    | base =>
      intro _
      rw [hseed]
      congr 1
      rw [sum_const_list (fun x hx => hconst x (List.take_subset _ _ hx)),
        List.length_take, min_eq_left hlen, mul_comm, mul_div_assoc,
        div_self hN0, mul_one]
    | succ i hi ih =>
      intro hlt
      rw [hrec (i + 1) (by omega) hlt]
      have hi' : i < src.length := by omega
      rw [show i + 1 - 1 = i from rfl, ih hi']
      have hv : src.getD (i + 1) 0 = V := by
        rw [List.getD_eq_getElem _ _ hlt]
        exact hconst _ (List.getElem_mem _)
      simp only [Option.map_some']
      rw [hv]
      congr 1
      field_simp
      ring

/-- Witness for C6 at a concrete input. -/
theorem C6_smma_witness :
    smma [(3 : ℚ), 3, 3, 3] 2 0 = none ∧ smma [(3 : ℚ), 3, 3, 3] 2 3 = some 3 := by
  have h := C6_smma [3, 3, 3, 3] 2 (by norm_num) (by norm_num)
  exact ⟨h.1 0 (by norm_num), h.2.2.2 3 (by decide) 3 (by norm_num) (by norm_num)⟩

/-! ### Claim theorems: sizing, metrics, trade records -/

/-- C5: the risk-percentage size is `floor(equity*risk_pct /
(|entry-stop| * contract_multiplier))` for a positive stop distance (under a
non-negative risk amount and positive multiplier), 0 for a non-positive
distance, and the documented concrete instance returns 90. -/
theorem C5_calculate_size (equity risk_pct entry stop cm : ℚ)
    (he : 0 ≤ equity) (hr : 0 ≤ risk_pct) (hcm : 0 < cm) :
    (0 < |entry - stop| →
      calculate_size equity risk_pct entry stop cm =
        ⌊equity * risk_pct / (|entry - stop| * cm)⌋) ∧
    (|entry - stop| ≤ 0 → calculate_size equity risk_pct entry stop cm = 0) ∧
    calculate_size 100000 (9 / 1000) 100 90 1 = 90 := by
  have habs : |(100 : ℚ) - 90| = 10 := by
    rw [show (100 : ℚ) - 90 = 10 from by norm_num]
    exact abs_of_pos (by norm_num)
  refine ⟨fun h => ?_, fun h => ?_, ?_⟩
  · simp only [calculate_size]
    rw [if_neg (not_le.mpr h)]
    exact max_eq_right (Int.le_floor.mpr (by
      push_cast
      exact div_nonneg (mul_nonneg he hr) (mul_nonneg h.le hcm.le)))
  · simp only [calculate_size]
    rw [if_pos h]
  · simp only [calculate_size]
    rw [if_neg (by rw [habs]; norm_num), habs,
      show (100000 * (9 / 1000) : ℚ) / (10 * 1) = 90 from by norm_num,
      show ⌊(90 : ℚ)⌋ = 90 from by exact_mod_cast Int.floor_natCast 90]
    rfl

/-- Witness for C5 at the documented concrete input. -/
theorem C5_calculate_size_witness :
    calculate_size 100000 (9 / 1000) 100 90 1 = 90 :=
  (C5_calculate_size 100000 (9 / 1000) 100 90 1 (by norm_num) (by norm_num)
    (by norm_num)).2.2

/-- C7: the summary profit factor is winning P&L over the absolute losing
P&L, is `+inf` whenever the losing total is 0 (in particular with at least
one winner and no losers), and a run without closed trades reports
`percent_profitable = 0`. -/
theorem C7_profit_factor (pnls : List ℚ) :
    (lostTotal pnls ≠ 0 →
      profit_factor pnls = PFactor.val (wonTotal pnls / |lostTotal pnls|)) ∧
    (lostTotal pnls = 0 → profit_factor pnls = PFactor.posInf) ∧
    (pnls.filter (fun p => decide (p < 0)) = [] → 1 ≤ wonCount pnls →
      profit_factor pnls = PFactor.posInf) ∧
    (totalTrades pnls = 0 → percent_profitable pnls = 0) := by
  refine ⟨fun h => ?_, fun h => ?_, fun h _ => ?_, fun h => ?_⟩
  · simp [profit_factor, h]
  · simp [profit_factor, h]
  · have h0 : lostTotal pnls = 0 := by simp [lostTotal, h]
    simp [profit_factor, h0]
  · simp [percent_profitable, h]

/-- Witness for C7: one winning trade and no losers yields `+inf`. -/
theorem C7_profit_factor_witness : profit_factor [(3 : ℚ)] = PFactor.posInf :=
  (C7_profit_factor [3]).2.1 (by decide)

/-- C9: the trade logger stores `exit_price = entry_price + pnl/size` and
`pnl_percent = pnl/(entry_price*size)*100` for nonzero size, and
`exit_price = entry_price`, `pnl_percent = 0` for zero size. -/
theorem C9_notify_trade (e s p : ℚ) :
    (s ≠ 0 → (notify_trade_closed e s p).exit_price = e + p / s ∧
      (notify_trade_closed e s p).pnl_percent = p / (e * s) * 100) ∧
    (s = 0 → (notify_trade_closed e s p).exit_price = e ∧
      (notify_trade_closed e s p).pnl_percent = 0) := by
  refine ⟨fun h => ⟨?_, ?_⟩, fun h => ⟨?_, ?_⟩⟩ <;> simp [notify_trade_closed, h]

/-- Witness for C9 at a concrete input. -/
theorem C9_notify_trade_witness :
    (notify_trade_closed 100 2 10).exit_price = 100 + 10 / 2 ∧
    (notify_trade_closed 100 2 10).pnl_percent = 10 / (100 * 2) * 100 :=
  (C9_notify_trade 100 2 10).1 (by norm_num)

/-! ### Step-evaluation lemmas -/

lemma step_eq_core (cfg : TCfg) (equity : ℚ) (s : StratState) (nbars : ℕ)
    (b : Bar) (a : ℚ) (ha : b.adx = some a) (hmin : ¬ nbars < cfg.min_bars)
    (hth : ¬ a ≤ cfg.adx_threshold)
    (hcap : ¬ cfg.max_trades_per_day ≤ (resetToday s b).trades_today) :
    step cfg equity s nbars b =
      if (resetToday s b).position = 0 then
        flatBranch cfg equity (resetToday s b) b
      else openBranch cfg (resetToday s b) b := by
  simp only [step, ha, if_neg hmin, if_neg hth, if_neg hcap]

lemma step_eq_skip_min (cfg : TCfg) (equity : ℚ) (s : StratState) (nbars : ℕ)
    (b : Bar) (hmin : nbars < cfg.min_bars) :
    step cfg equity s nbars b = resetToday s b := by
  simp only [step, if_pos hmin]

lemma step_eq_skip_adxNaN (cfg : TCfg) (equity : ℚ) (s : StratState) (nbars : ℕ)
    (b : Bar) (ha : b.adx = none) (hmin : ¬ nbars < cfg.min_bars) :
    step cfg equity s nbars b = resetToday s b := by
  simp only [step, ha, if_neg hmin]

lemma step_eq_skip_adxLow (cfg : TCfg) (equity : ℚ) (s : StratState) (nbars : ℕ)
    (b : Bar) (a : ℚ) (ha : b.adx = some a) (hth : a ≤ cfg.adx_threshold)
    (hmin : ¬ nbars < cfg.min_bars) :
    step cfg equity s nbars b = resetToday s b := by
  simp only [step, ha, if_neg hmin, if_pos hth]

lemma step_eq_skip_cap (cfg : TCfg) (equity : ℚ) (s : StratState) (nbars : ℕ)
    (b : Bar) (a : ℚ) (ha : b.adx = some a) (hth : ¬ a ≤ cfg.adx_threshold)
    (hmin : ¬ nbars < cfg.min_bars)
    (hcap : cfg.max_trades_per_day ≤ (resetToday s b).trades_today) :
    step cfg equity s nbars b = resetToday s b := by
  simp only [step, ha, if_neg hmin, if_neg hth, if_pos hcap]

lemma resetToday_eq_self (s : StratState) (b : Bar) (h : s.today = some b.date) :
    resetToday s b = s := by
  simp only [resetToday, if_pos h]

/-! ### Field-preservation lemmas for the management blocks -/

lemma beLong_position (s : StratState) (c : ℚ) : (beLong s c).position = s.position := by
  unfold beLong
  split <;> rfl

lemma beLong_close_reason (s : StratState) (c : ℚ) :
    (beLong s c).close_reason = s.close_reason := by
  unfold beLong
  split <;> rfl

lemma trailLong_position (cfg : TCfg) (s : StratState) :
    (trailLong cfg s).position = s.position := by
  unfold trailLong
  split
  · rfl
  · dsimp only
    split <;> rfl

lemma trailLong_close_reason (cfg : TCfg) (s : StratState) :
    (trailLong cfg s).close_reason = s.close_reason := by
  unfold trailLong
  split
  · rfl
  · dsimp only
    split <;> rfl

lemma tpLong_position (s : StratState) (h : ℚ) : (tpLong s h).position = s.position := by
  unfold tpLong
  split
  · rfl
  · split
    · dsimp only
      split <;> rfl
    · rfl

lemma tpLong_close_reason (s : StratState) (h : ℚ) :
    (tpLong s h).close_reason = s.close_reason := by
  unfold tpLong
  split
  · rfl
  · split
    · dsimp only
      split <;> rfl
    · rfl

lemma tpLong_stop_price (s : StratState) (h : ℚ) :
    (tpLong s h).stop_price = s.stop_price := by
  unfold tpLong
  split
  · rfl
  · split
    · dsimp only
      split <;> rfl
    · rfl

lemma beShort_position (s : StratState) (c : ℚ) : (beShort s c).position = s.position := by
  unfold beShort
  split <;> rfl

lemma beShort_close_reason (s : StratState) (c : ℚ) :
    (beShort s c).close_reason = s.close_reason := by
  unfold beShort
  split <;> rfl

lemma trailShort_position (cfg : TCfg) (s : StratState) :
    (trailShort cfg s).position = s.position := by
  unfold trailShort
  split
  · rfl
  · dsimp only
    split <;> rfl

lemma trailShort_close_reason (cfg : TCfg) (s : StratState) :
    (trailShort cfg s).close_reason = s.close_reason := by
  unfold trailShort
  split
  · rfl
  · dsimp only
    split <;> rfl

lemma tpShort_position (s : StratState) (l : ℚ) : (tpShort s l).position = s.position := by
  unfold tpShort
  split
  · rfl
  · split
    · dsimp only
      split <;> rfl
    · rfl

lemma tpShort_close_reason (s : StratState) (l : ℚ) :
    (tpShort s l).close_reason = s.close_reason := by
  unfold tpShort
  split
  · rfl
  · split
    · dsimp only
      split <;> rfl
    · rfl

lemma tpShort_stop_price (s : StratState) (l : ℚ) :
    (tpShort s l).stop_price = s.stop_price := by
  unfold tpShort
  split
  · rfl
  · split
    · dsimp only
      split <;> rfl
    · rfl

lemma trendbreakCheck_flat (s : StratState) (b : Bar) (h : s.position = 0) :
    trendbreakCheck s b = s := by
  have h1 : ¬ (0 < s.position ∧ oLT (some b.close) b.kijun = true ∧
      s.close_reason = "") := by
    rintro ⟨h1, -⟩
    omega
  have h2 : ¬ (s.position < 0 ∧ oLT b.kijun (some b.close) = true ∧
      s.close_reason = "") := by
    rintro ⟨h2, -⟩
    omega
  unfold trendbreakCheck
  rw [if_neg h1, if_neg h2]

/-! ### Claim theorems: state machine -/

/-- C4 (amended): when `adx` is undefined at the current bar, `next` returns
right after the daily-counter reset: no entry, no management, no exit; every
position-management field of the state is unchanged. -/
theorem C4_nan_skip (cfg : TCfg) (equity : ℚ) (s : StratState) (nbars : ℕ)
    (b : Bar) (h : b.adx = none) :
    step cfg equity s nbars b = resetToday s b ∧
    (resetToday s b).position = s.position ∧
    (resetToday s b).stop_price = s.stop_price ∧
    (resetToday s b).entry_price = s.entry_price ∧
    (resetToday s b).breakeven_active = s.breakeven_active ∧
    (resetToday s b).highest_since_entry = s.highest_since_entry ∧
    (resetToday s b).lowest_since_entry = s.lowest_since_entry ∧
    (resetToday s b).exit_order = s.exit_order ∧
    (resetToday s b).close_reason = s.close_reason := by
  constructor
  · simp [step, h]
  · unfold resetToday
    split <;> exact ⟨rfl, rfl, rfl, rfl, rfl, rfl, rfl, rfl⟩

/-- Configuration used by the C4 concrete instances. -/
def C4cfg : TCfg :=
  { min_bars := 0, adx_threshold := 25, max_trades_per_day := 5
    tp_r_multiple := 3 / 4, trailing_atr_mult := 3, risk_pct := 9 / 1000
    contract_multiplier := 1, fixed_position_size := 200 }

/-- A bar whose `vapi` is undefined while all SHORT gate comparisons hold. -/
def C4bar : Bar :=
  { date := 0, close := 100, high := 101, low := 99
    gauss := some 5, gauss_prev := some 6, kijun := some 150
    vapi := none, vapi_prev := some 1, adx := some 30, smma := some 150
    atr := some 2, swing_low := some 95, swing_high := some 120 }

/-- A bar with undefined `adx` (used by the C4 witness). -/
def C4barNaN : Bar :=
  { date := 0, close := 100, high := 101, low := 99
    gauss := none, gauss_prev := none, kijun := none
    vapi := none, vapi_prev := none, adx := none, smma := none
    atr := none, swing_low := none, swing_high := none }

/-- Witness for C4 at a concrete input. -/
theorem C4_nan_skip_witness :
    step C4cfg 1000 initState 1 C4barNaN = resetToday initState C4barNaN :=
  (C4_nan_skip C4cfg 1000 initState 1 C4barNaN rfl).1

/-- Counterexample to C4 as stated: on a bar whose `vapi` is undefined (but
`adx` is defined and above threshold) the strategy still opens a short
position — the bar is not skipped and the position state mutates, because
`not vapi_up` is satisfied by the NaN-false comparison. -/
theorem C4_counterexample :
    (step C4cfg 1000 initState 1 C4bar).position = -2 ∧ C4bar.vapi = none := by
  refine ⟨?_, rfl⟩
  have hreset : resetToday initState C4bar = { initState with today := some 0 } := by
    simp [resetToday, initState, C4bar]
  have hstep : step C4cfg 1000 initState 1 C4bar
      = flatBranch C4cfg 1000 (resetToday initState C4bar) C4bar := by
    rw [step_eq_core C4cfg 1000 initState 1 C4bar 30 rfl (by norm_num [C4cfg])
      (by norm_num [C4cfg]) (by rw [hreset]; norm_num [C4cfg, initState])]
    rw [hreset]
    rfl
  have hlong : longCond C4bar = false := by
    simp [longCond, oLT, C4bar]
  have hshort : shortCond C4bar = true := by
    simp [shortCond, oLT, C4bar]
    norm_num
  have hsize : determine_size C4cfg 1000 C4bar.close (C4bar.swing_high.getD 0) = 2 := by
    simp only [determine_size, C4cfg, C4bar, pyInt, Option.getD]
    norm_num
  rw [hstep, hreset]
  simp only [flatBranch, hlong, hshort, hsize]
  norm_num [enterShort]

/-- C2 (amended): on every processed bar that reaches the position-management
logic — i.e. that passes the warm-up, defined-ADX-above-threshold and
daily-cap gates — both exit conditions are checked, stop-loss first: for a
long, if close is at or below the stop (as updated by that bar's
breakeven/trailing logic) the whole position is closed with the stop-loss
reason; otherwise, if close is under kijun, it is closed with the trend-break
reason; otherwise it stays open with no reason recorded.  Mirror for a short.
Exactly one close reason is recorded per close. -/
theorem C2_exit_order (cfg : TCfg) (equity : ℚ) (s : StratState) (nbars : ℕ)
    (b : Bar) (a : ℚ)
    (htoday : s.today = some b.date) (hmin : ¬ nbars < cfg.min_bars)
    (ha : b.adx = some a) (hth : ¬ a ≤ cfg.adx_threshold)
    (hcap : ¬ cfg.max_trades_per_day ≤ s.trades_today)
    (hep : s.entry_price ≠ none) (hsp : s.stop_price ≠ none)
    (hrk : s.entry_risk ≠ none) (hcr : s.close_reason = "") :
    (0 < s.position →
      (b.close ≤ managedStopLong cfg s b →
        (step cfg equity s nbars b).position = 0 ∧
          (step cfg equity s nbars b).close_reason = "Stop loss LONG") ∧
      (¬ b.close ≤ managedStopLong cfg s b → oLT (some b.close) b.kijun = true →
        (step cfg equity s nbars b).position = 0 ∧
          (step cfg equity s nbars b).close_reason = "Trendbreak LONG") ∧
      (¬ b.close ≤ managedStopLong cfg s b → ¬ oLT (some b.close) b.kijun = true →
        (step cfg equity s nbars b).position = s.position ∧
          (step cfg equity s nbars b).close_reason = "")) ∧
    (s.position < 0 →
      (managedStopShort cfg s b ≤ b.close →
        (step cfg equity s nbars b).position = 0 ∧
          (step cfg equity s nbars b).close_reason = "Stop loss SHORT") ∧
      (¬ managedStopShort cfg s b ≤ b.close → oLT b.kijun (some b.close) = true →
        (step cfg equity s nbars b).position = 0 ∧
          (step cfg equity s nbars b).close_reason = "Trendbreak SHORT") ∧
      (¬ managedStopShort cfg s b ≤ b.close → ¬ oLT b.kijun (some b.close) = true →
        (step cfg equity s nbars b).position = s.position ∧
          (step cfg equity s nbars b).close_reason = "")) := by
  have hres : resetToday s b = s := resetToday_eq_self s b htoday
  have hguard : ¬ (s.entry_price = none ∨ s.stop_price = none ∨ s.entry_risk = none) := by
    push_neg
    exact ⟨hep, hsp, hrk⟩
  constructor
  · intro hpos
    have hstep : step cfg equity s nbars b = trendbreakCheck (manageLong cfg s b) b := by
      rw [step_eq_core cfg equity s nbars b a ha hmin hth (by rwa [hres]), hres,
        if_neg (by omega : ¬ s.position = 0)]
      simp only [openBranch, if_neg hguard, if_pos hpos]
    set Y := tpLong (trailLong cfg
      (beLong { s with highest_since_entry := some (max (hbase s) b.high) } b.close))
      b.high with hY
    have hml : manageLong cfg s b = slLong Y b.close := rfl
    have hYpos : Y.position = s.position := by
      rw [hY, tpLong_position, trailLong_position, beLong_position]
    have hYcr : Y.close_reason = "" := by
      rw [hY, tpLong_close_reason, trailLong_close_reason, beLong_close_reason]
      exact hcr
    have hYsp : Y.stop_price.getD 0 = managedStopLong cfg s b := by
      rw [hY, tpLong_stop_price]
      rfl
    refine ⟨fun hsl => ?_, fun hnsl hk => ?_, fun hnsl hnk => ?_⟩
    · have hslY : slLong Y b.close =
          { Y with position := 0, close_reason := "Stop loss LONG" } := by
        unfold slLong
        rw [if_pos ⟨by rw [hYsp]; exact hsl, hYcr⟩]
      rw [hstep, hml, hslY, trendbreakCheck_flat _ b rfl]
      exact ⟨rfl, rfl⟩
    · have hslY : slLong Y b.close = Y := by
        unfold slLong
        rw [if_neg]
        rintro ⟨h1, -⟩
        rw [hYsp] at h1
        exact hnsl h1
      rw [hstep, hml, hslY]
      unfold trendbreakCheck
      rw [if_pos ⟨by rw [hYpos]; exact hpos, hk, hYcr⟩]
      exact ⟨rfl, rfl⟩
    · have hslY : slLong Y b.close = Y := by
        unfold slLong
        rw [if_neg]
        rintro ⟨h1, -⟩
        rw [hYsp] at h1
        exact hnsl h1
      rw [hstep, hml, hslY]
      unfold trendbreakCheck
      rw [if_neg (by rintro ⟨-, h2, -⟩; exact hnk h2),
        if_neg (by rintro ⟨h1, -⟩; rw [hYpos] at h1; omega)]
      exact ⟨hYpos, hYcr⟩
  · intro hpos
    have hstep : step cfg equity s nbars b = trendbreakCheck (manageShort cfg s b) b := by
      rw [step_eq_core cfg equity s nbars b a ha hmin hth (by rwa [hres]), hres,
        if_neg (by omega : ¬ s.position = 0)]
      simp only [openBranch, if_neg hguard, if_neg (by omega : ¬ 0 < s.position)]
    set Y := tpShort (trailShort cfg
      (beShort { s with lowest_since_entry := some (min (lbase s) b.low) } b.close))
      b.low with hY
    have hml : manageShort cfg s b = slShort Y b.close := rfl
    have hYpos : Y.position = s.position := by
      rw [hY, tpShort_position, trailShort_position, beShort_position]
    have hYcr : Y.close_reason = "" := by
      rw [hY, tpShort_close_reason, trailShort_close_reason, beShort_close_reason]
      exact hcr
    have hYsp : Y.stop_price.getD 0 = managedStopShort cfg s b := by
      rw [hY, tpShort_stop_price]
      rfl
    refine ⟨fun hsl => ?_, fun hnsl hk => ?_, fun hnsl hnk => ?_⟩
    · have hslY : slShort Y b.close =
          { Y with position := 0, close_reason := "Stop loss SHORT" } := by
        unfold slShort
        rw [if_pos ⟨by rw [hYsp]; exact hsl, hYcr⟩]
      rw [hstep, hml, hslY, trendbreakCheck_flat _ b rfl]
      exact ⟨rfl, rfl⟩
    · have hslY : slShort Y b.close = Y := by
        unfold slShort
        rw [if_neg]
        rintro ⟨h1, -⟩
        rw [hYsp] at h1
        exact hnsl h1
      rw [hstep, hml, hslY]
      unfold trendbreakCheck
      rw [if_neg (by rintro ⟨h1, -⟩; rw [hYpos] at h1; omega),
        if_pos ⟨by rw [hYpos]; exact hpos, hk, hYcr⟩]
      exact ⟨rfl, rfl⟩
    · have hslY : slShort Y b.close = Y := by
        unfold slShort
        rw [if_neg]
        rintro ⟨h1, -⟩
        rw [hYsp] at h1
        exact hnsl h1
      rw [hstep, hml, hslY]
      unfold trendbreakCheck
      rw [if_neg (by rintro ⟨h1, -⟩; rw [hYpos] at h1; omega),
        if_neg (by rintro ⟨-, h2, -⟩; exact hnk h2)]
      exact ⟨hYpos, hYcr⟩

/-- Configuration used by the C2 concrete instances. -/
def C2cfg : TCfg :=
  { min_bars := 0, adx_threshold := 25, max_trades_per_day := 5
    tp_r_multiple := 3 / 4, trailing_atr_mult := 3, risk_pct := 9 / 1000
    contract_multiplier := 1, fixed_position_size := 200 }

/-- An open long position (3 contracts, entry 100, stop 95, risk 5). -/
def C2state : StratState :=
  { today := some 0, trades_today := 0, entry_price := some 100
    stop_price := some 95, initial_atr := some 1, entry_risk := some 5
    tp_price := some 110, breakeven_active := false
    highest_since_entry := some 100, lowest_since_entry := none
    close_reason := "", exit_order := none, position := 3 }

/-- A bar that hits the (trailed) stop of `C2state` with defined ADX. -/
def C2bar : Bar :=
  { date := 0, close := 90, high := 100, low := 89
    gauss := some 5, gauss_prev := some 5, kijun := some 80
    vapi := some 1, vapi_prev := some 1, adx := some 30, smma := some 100
    atr := some 1, swing_low := some 85, swing_high := some 120 }

/-- The same bar with ADX at 10, below the threshold of 25. -/
def C2barLow : Bar := { C2bar with adx := some 10 }

/-- Witness for C2 (amended) at a concrete input: the stop fires. -/
theorem C2_exit_order_witness :
    (step C2cfg 1000 C2state 1 C2bar).position = 0 ∧
    (step C2cfg 1000 C2state 1 C2bar).close_reason = "Stop loss LONG" :=
  ((C2_exit_order C2cfg 1000 C2state 1 C2bar 30 rfl (by decide) rfl
      (by norm_num [C2cfg]) (by decide) (by decide) (by decide) (by decide)
      rfl).1 (by decide)).1
    (by norm_num [managedStopLong, beLong, trailLong, hbase, C2cfg, C2state, C2bar])

/-- Counterexample to C2 as stated: with an open long and close at or below
the stop, a bar whose ADX is defined but at most the threshold is skipped
before any exit check — the position stays open and no close reason is
recorded, although the claim requires a stop-loss close on every processed
bar. -/
theorem C2_counterexample :
    (step C2cfg 1000 C2state 1 C2barLow).position = 3 ∧
    (step C2cfg 1000 C2state 1 C2barLow).close_reason = "" ∧
    C2barLow.close ≤ C2state.stop_price.getD 0 ∧
    C2barLow.adx = some 10 ∧ C2state.position = 3 := by
  have h := step_eq_skip_adxLow C2cfg 1000 C2state 1 C2barLow 10 rfl
    (by norm_num [C2cfg]) (by decide)
  rw [h, resetToday_eq_self C2state C2barLow rfl]
  exact ⟨rfl, rfl, by decide, rfl, rfl⟩

/-! ### Exit-order (pending partial TP) preservation lemmas -/

lemma resetToday_exit_order (s : StratState) (b : Bar) :
    (resetToday s b).exit_order = s.exit_order := by
  unfold resetToday
  split <;> rfl

lemma resetToday_position (s : StratState) (b : Bar) :
    (resetToday s b).position = s.position := by
  unfold resetToday
  split <;> rfl

lemma beLong_exit_order (s : StratState) (c : ℚ) :
    (beLong s c).exit_order = s.exit_order := by
  unfold beLong
  split <;> rfl

lemma trailLong_exit_order (cfg : TCfg) (s : StratState) :
    (trailLong cfg s).exit_order = s.exit_order := by
  unfold trailLong
  split
  · rfl
  · dsimp only
    split <;> rfl

lemma slLong_exit_order (s : StratState) (c : ℚ) :
    (slLong s c).exit_order = s.exit_order := by
  unfold slLong
  split <;> rfl

lemma beShort_exit_order (s : StratState) (c : ℚ) :
    (beShort s c).exit_order = s.exit_order := by
  unfold beShort
  split <;> rfl

lemma trailShort_exit_order (cfg : TCfg) (s : StratState) :
    (trailShort cfg s).exit_order = s.exit_order := by
  unfold trailShort
  split
  · rfl
  · dsimp only
    split <;> rfl

lemma slShort_exit_order (s : StratState) (c : ℚ) :
    (slShort s c).exit_order = s.exit_order := by
  unfold slShort
  split <;> rfl

lemma trendbreakCheck_exit_order (s : StratState) (b : Bar) :
    (trendbreakCheck s b).exit_order = s.exit_order := by
  unfold trendbreakCheck
  split
  · rfl
  · split <;> rfl

lemma tpLong_small (s : StratState) (h : ℚ) (hsz : s.position.natAbs ≤ 2) :
    (tpLong s h).exit_order = s.exit_order := by
  unfold tpLong
  split
  · rfl
  · split
    · dsimp only
      have hle : ((s.position.natAbs : ℚ)) * (2 / 5) < 1 := by
        have h2 : ((s.position.natAbs : ℚ)) ≤ 2 := by
          exact_mod_cast Nat.cast_le.mpr hsz
        nlinarith
      have hfl : (⌊((s.position.natAbs : ℚ)) * (2 / 5)⌋ : ℤ) < 1 :=
        Int.floor_lt.mpr (by exact_mod_cast hle)
      rw [if_neg (by omega : ¬ (0 : ℤ) < ⌊((s.position.natAbs : ℚ)) * (2 / 5)⌋)]
    · rfl

lemma tpShort_small (s : StratState) (l : ℚ) (hsz : s.position.natAbs ≤ 2) :
    (tpShort s l).exit_order = s.exit_order := by
  unfold tpShort
  split
  · rfl
  · split
    · dsimp only
      have hle : ((s.position.natAbs : ℚ)) * (2 / 5) < 1 := by
        have h2 : ((s.position.natAbs : ℚ)) ≤ 2 := by
          exact_mod_cast Nat.cast_le.mpr hsz
        nlinarith
      have hfl : (⌊((s.position.natAbs : ℚ)) * (2 / 5)⌋ : ℤ) < 1 :=
        Int.floor_lt.mpr (by exact_mod_cast hle)
      rw [if_neg (by omega : ¬ (0 : ℤ) < ⌊((s.position.natAbs : ℚ)) * (2 / 5)⌋)]
    · rfl

lemma tpLong_pending (s : StratState) (h : ℚ) (hp : s.exit_order ≠ none) :
    (tpLong s h).exit_order = s.exit_order := by
  unfold tpLong
  split
  · rfl
  · split
    · rename_i hcond
      exact absurd hcond.2 hp
    · rfl

lemma tpShort_pending (s : StratState) (l : ℚ) (hp : s.exit_order ≠ none) :
    (tpShort s l).exit_order = s.exit_order := by
  unfold tpShort
  split
  · rfl
  · split
    · rename_i hcond
      exact absurd hcond.2 hp
    · rfl

lemma openBranch_exit_small (cfg : TCfg) (s : StratState) (b : Bar)
    (hsz : s.position.natAbs ≤ 2) :
    (openBranch cfg s b).exit_order = s.exit_order := by
  unfold openBranch
  dsimp only
  rw [trendbreakCheck_exit_order]
  split
  · rfl
  · split
    · have hsz2 : (trailLong cfg (beLong
          { s with highest_since_entry := some (max (hbase s) b.high) }
          b.close)).position.natAbs ≤ 2 := by
        rw [trailLong_position, beLong_position]
        exact hsz
      unfold manageLong
      dsimp only
      rw [slLong_exit_order, tpLong_small _ _ hsz2, trailLong_exit_order,
        beLong_exit_order]
    · have hsz2 : (trailShort cfg (beShort
          { s with lowest_since_entry := some (min (lbase s) b.low) }
          b.close)).position.natAbs ≤ 2 := by
        rw [trailShort_position, beShort_position]
        exact hsz
      unfold manageShort
      dsimp only
      rw [slShort_exit_order, tpShort_small _ _ hsz2, trailShort_exit_order,
        beShort_exit_order]

lemma openBranch_exit_pending (cfg : TCfg) (s : StratState) (b : Bar)
    (hp : s.exit_order ≠ none) :
    (openBranch cfg s b).exit_order = s.exit_order := by
  unfold openBranch
  dsimp only
  rw [trendbreakCheck_exit_order]
  split
  · rfl
  · split
    · have hp2 : (trailLong cfg (beLong
          { s with highest_since_entry := some (max (hbase s) b.high) }
          b.close)).exit_order ≠ none := by
        rw [trailLong_exit_order, beLong_exit_order]
        exact hp
      unfold manageLong
      dsimp only
      rw [slLong_exit_order, tpLong_pending _ _ hp2, trailLong_exit_order,
        beLong_exit_order]
    · have hp2 : (trailShort cfg (beShort
          { s with lowest_since_entry := some (min (lbase s) b.low) }
          b.close)).exit_order ≠ none := by
        rw [trailShort_exit_order, beShort_exit_order]
        exact hp
      unfold manageShort
      dsimp only
      rw [slShort_exit_order, tpShort_pending _ _ hp2, trailShort_exit_order,
        beShort_exit_order]

lemma step_exit_small (cfg : TCfg) (equity : ℚ) (s : StratState) (nbars : ℕ)
    (b : Bar) (hpos : s.position ≠ 0) (hsz : s.position.natAbs ≤ 2) :
    (step cfg equity s nbars b).exit_order = s.exit_order := by
  rcases Nat.lt_or_ge nbars cfg.min_bars with hmin | hmin
  · rw [step_eq_skip_min cfg equity s nbars b hmin, resetToday_exit_order]
  · cases ha : b.adx with
    | none =>
      rw [step_eq_skip_adxNaN cfg equity s nbars b ha (by omega),
        resetToday_exit_order]
    | some a =>
      by_cases hth : a ≤ cfg.adx_threshold
      · rw [step_eq_skip_adxLow cfg equity s nbars b a ha hth (by omega),
          resetToday_exit_order]
      · by_cases hcap : cfg.max_trades_per_day ≤ (resetToday s b).trades_today
        · rw [step_eq_skip_cap cfg equity s nbars b a ha hth (by omega) hcap,
            resetToday_exit_order]
        · rw [step_eq_core cfg equity s nbars b a ha (by omega) hth hcap,
            if_neg (by rw [resetToday_position]; exact hpos),
            openBranch_exit_small cfg (resetToday s b) b
              (by rw [resetToday_position]; exact hsz),
            resetToday_exit_order]

lemma step_exit_pending (cfg : TCfg) (equity : ℚ) (s : StratState) (nbars : ℕ)
    (b : Bar) (hpos : s.position ≠ 0) (hp : s.exit_order ≠ none) :
    (step cfg equity s nbars b).exit_order = s.exit_order := by
  rcases Nat.lt_or_ge nbars cfg.min_bars with hmin | hmin
  · rw [step_eq_skip_min cfg equity s nbars b hmin, resetToday_exit_order]
  · cases ha : b.adx with
    | none =>
      rw [step_eq_skip_adxNaN cfg equity s nbars b ha (by omega),
        resetToday_exit_order]
    | some a =>
      by_cases hth : a ≤ cfg.adx_threshold
      · rw [step_eq_skip_adxLow cfg equity s nbars b a ha hth (by omega),
          resetToday_exit_order]
      · by_cases hcap : cfg.max_trades_per_day ≤ (resetToday s b).trades_today
        · rw [step_eq_skip_cap cfg equity s nbars b a ha hth (by omega) hcap,
            resetToday_exit_order]
        · rw [step_eq_core cfg equity s nbars b a ha (by omega) hth hcap,
            if_neg (by rw [resetToday_position]; exact hpos),
            openBranch_exit_pending cfg (resetToday s b) b
              (by rw [resetToday_exit_order]; exact hp),
            resetToday_exit_order]

/-- C10: a position of at most 2 contracts never submits the partial
take-profit order (its 40% floor is 0 and submission requires a positive
floor); and during any stretch of bars on which the position stays open, the
partial take-profit order is submitted at most once — once one is pending it
stays pending, since the flag is only cleared in the flat branch. -/
theorem C10_partial_tp (cfg : TCfg) (equity : ℚ) :
    (∀ s nbars b, s.position ≠ 0 → s.position.natAbs ≤ 2 →
      (step cfg equity s nbars b).exit_order = s.exit_order) ∧
    (∀ s n bars, s.position ≠ 0 → s.exit_order ≠ none →
      openThroughout cfg equity s n bars →
      tpSubmitCount cfg equity s n bars = 0) ∧
    (∀ s n bars, s.position ≠ 0 → openThroughout cfg equity s n bars →
      tpSubmitCount cfg equity s n bars ≤ 1) := by
  have hpend : ∀ bars s n, s.position ≠ 0 → s.exit_order ≠ none →
      openThroughout cfg equity s n bars →
      tpSubmitCount cfg equity s n bars = 0 := by
    intro bars
    induction bars with
    | nil =>
      intro s n _ _ _
      rfl
    | cons b bs ih =>
      intro s n hpos hp hopen
      obtain ⟨h1, h2⟩ := hopen
      have hpres : (step cfg equity s (n + 1) b).exit_order = s.exit_order :=
        step_exit_pending cfg equity s (n + 1) b hpos hp
      have hnosub : ¬ submittedTP cfg equity s (n + 1) b = true := by
        simp only [submittedTP, Bool.and_eq_true, decide_eq_true_eq]
        rintro ⟨hnone, -⟩
        exact hp hnone
      simp only [tpSubmitCount]
      rw [if_neg hnosub,
        ih (step cfg equity s (n + 1) b) (n + 1) h1 (by rw [hpres]; exact hp) h2]
  have hatmost : ∀ bars s n, s.position ≠ 0 →
      openThroughout cfg equity s n bars →
      tpSubmitCount cfg equity s n bars ≤ 1 := by
    intro bars
    induction bars with
    | nil =>
      intro s n _ _
      exact Nat.zero_le 1
    | cons b bs ih =>
      intro s n hpos hopen
      obtain ⟨h1, h2⟩ := hopen
      by_cases hp : s.exit_order = none
      · by_cases hs2 : (step cfg equity s (n + 1) b).exit_order = none
        · have hnosub : ¬ submittedTP cfg equity s (n + 1) b = true := by
            simp only [submittedTP, Bool.and_eq_true, decide_eq_true_eq]
            rintro ⟨-, hnn⟩
            exact hnn hs2
          simp only [tpSubmitCount]
          rw [if_neg hnosub]
          simpa using ih (step cfg equity s (n + 1) b) (n + 1) h1 h2
        · have hrest : tpSubmitCount cfg equity
              (step cfg equity s (n + 1) b) (n + 1) bs = 0 :=
            hpend bs (step cfg equity s (n + 1) b) (n + 1) h1 hs2 h2
          simp only [tpSubmitCount]
          rw [hrest]
          split <;> omega
      · have hall := hpend (b :: bs) s n hpos hp ⟨h1, h2⟩
        omega
  exact ⟨fun s nbars b => step_exit_small cfg equity s nbars b,
    fun s n bars => hpend bars s n, fun s n bars => hatmost bars s n⟩

/-- A small open long position (2 contracts) for the C10 witness. -/
def C10state : StratState := { C2state with position := 2 }

/-- Witness for C10 at a concrete input. -/
theorem C10_partial_tp_witness :
    (step C2cfg 1000 C10state 1 C2bar).exit_order = C10state.exit_order ∧
    tpSubmitCount C2cfg 1000 C10state 0 [] ≤ 1 :=
  ⟨(C10_partial_tp C2cfg 1000).1 C10state 1 C2bar (by decide) (by decide),
   (C10_partial_tp C2cfg 1000).2.2 C10state 0 [] (by decide) trivial⟩

/-! ### Daily-counter lemmas -/

lemma resetToday_today (s : StratState) (b : Bar) :
    (resetToday s b).today = some b.date := by
  unfold resetToday
  split
  · rename_i h
    exact h
  · rfl

lemma resetToday_trades (s : StratState) (b : Bar) :
    (resetToday s b).trades_today = baseCount s b := by
  unfold resetToday baseCount
  by_cases h : s.today = some b.date
  · rw [if_pos h, if_pos h]
  · rw [if_neg h, if_neg h]

lemma beLong_trades (s : StratState) (c : ℚ) :
    (beLong s c).trades_today = s.trades_today := by
  unfold beLong
  split <;> rfl

lemma beLong_today (s : StratState) (c : ℚ) : (beLong s c).today = s.today := by
  unfold beLong
  split <;> rfl

lemma trailLong_trades (cfg : TCfg) (s : StratState) :
    (trailLong cfg s).trades_today = s.trades_today := by
  unfold trailLong
  split
  · rfl
  · dsimp only
    split <;> rfl

lemma trailLong_today (cfg : TCfg) (s : StratState) :
    (trailLong cfg s).today = s.today := by
  unfold trailLong
  split
  · rfl
  · dsimp only
    split <;> rfl

lemma tpLong_trades (s : StratState) (h : ℚ) :
    (tpLong s h).trades_today = s.trades_today := by
  unfold tpLong
  split
  · rfl
  · split
    · dsimp only
      split <;> rfl
    · rfl

lemma tpLong_today (s : StratState) (h : ℚ) : (tpLong s h).today = s.today := by
  unfold tpLong
  split
  · rfl
  · split
    · dsimp only
      split <;> rfl
    · rfl

lemma slLong_trades (s : StratState) (c : ℚ) :
    (slLong s c).trades_today = s.trades_today := by
  unfold slLong
  split <;> rfl

lemma slLong_today (s : StratState) (c : ℚ) : (slLong s c).today = s.today := by
  unfold slLong
  split <;> rfl

lemma beShort_trades (s : StratState) (c : ℚ) :
    (beShort s c).trades_today = s.trades_today := by
  unfold beShort
  split <;> rfl

lemma beShort_today (s : StratState) (c : ℚ) : (beShort s c).today = s.today := by
  unfold beShort
  split <;> rfl

lemma trailShort_trades (cfg : TCfg) (s : StratState) :
    (trailShort cfg s).trades_today = s.trades_today := by
  unfold trailShort
  split
  · rfl
  · dsimp only
    split <;> rfl

lemma trailShort_today (cfg : TCfg) (s : StratState) :
    (trailShort cfg s).today = s.today := by
  unfold trailShort
  split
  · rfl
  · dsimp only
    split <;> rfl

lemma tpShort_trades (s : StratState) (l : ℚ) :
    (tpShort s l).trades_today = s.trades_today := by
  unfold tpShort
  split
  · rfl
  · split
    · dsimp only
      split <;> rfl
    · rfl

lemma tpShort_today (s : StratState) (l : ℚ) : (tpShort s l).today = s.today := by
  unfold tpShort
  split
  · rfl
  · split
    · dsimp only
      split <;> rfl
    · rfl

lemma slShort_trades (s : StratState) (c : ℚ) :
    (slShort s c).trades_today = s.trades_today := by
  unfold slShort
  split <;> rfl

lemma slShort_today (s : StratState) (c : ℚ) : (slShort s c).today = s.today := by
  unfold slShort
  split <;> rfl

lemma trendbreakCheck_trades (s : StratState) (b : Bar) :
    (trendbreakCheck s b).trades_today = s.trades_today := by
  unfold trendbreakCheck
  split
  · rfl
  · split <;> rfl

lemma trendbreakCheck_today (s : StratState) (b : Bar) :
    (trendbreakCheck s b).today = s.today := by
  unfold trendbreakCheck
  split
  · rfl
  · split <;> rfl

lemma openBranch_trades (cfg : TCfg) (s : StratState) (b : Bar) :
    (openBranch cfg s b).trades_today = s.trades_today := by
  unfold openBranch
  dsimp only
  rw [trendbreakCheck_trades]
  split
  · rfl
  · split
    · unfold manageLong
      dsimp only
      rw [slLong_trades, tpLong_trades, trailLong_trades, beLong_trades]
    · unfold manageShort
      dsimp only
      rw [slShort_trades, tpShort_trades, trailShort_trades, beShort_trades]

lemma openBranch_today (cfg : TCfg) (s : StratState) (b : Bar) :
    (openBranch cfg s b).today = s.today := by
  unfold openBranch
  dsimp only
  rw [trendbreakCheck_today]
  split
  · rfl
  · split
    · unfold manageLong
      dsimp only
      rw [slLong_today, tpLong_today, trailLong_today, beLong_today]
    · unfold manageShort
      dsimp only
      rw [slShort_today, tpShort_today, trailShort_today, beShort_today]

lemma flatBranch_cases (cfg : TCfg) (equity : ℚ) (s : StratState) (b : Bar) :
    (flatBranch cfg equity s b =
        enterLong cfg { s with exit_order := none, close_reason := "" } b
          (determine_size cfg equity b.close (b.swing_low.getD 0)) ∧
      0 < determine_size cfg equity b.close (b.swing_low.getD 0) ∧
      longCond b = true) ∨
    (flatBranch cfg equity s b =
        enterShort { s with exit_order := none, close_reason := "" } b
          (determine_size cfg equity b.close (b.swing_high.getD 0)) ∧
      0 < determine_size cfg equity b.close (b.swing_high.getD 0) ∧
      shortCond b = true) ∨
    flatBranch cfg equity s b = { s with exit_order := none, close_reason := "" } := by
  unfold flatBranch
  dsimp only
  split
  · rename_i h
    exact Or.inl ⟨rfl, h.2, h.1⟩
  · split
    · rename_i h
      exact Or.inr (Or.inl ⟨rfl, h.2, h.1⟩)
    · exact Or.inr (Or.inr rfl)

lemma step_today (cfg : TCfg) (equity : ℚ) (s : StratState) (nbars : ℕ) (b : Bar) :
    (step cfg equity s nbars b).today = some b.date := by
  have hres : (resetToday s b).today = some b.date := resetToday_today s b
  rcases Nat.lt_or_ge nbars cfg.min_bars with hmin | hmin
  · rw [step_eq_skip_min cfg equity s nbars b hmin]
    exact hres
  · cases ha : b.adx with
    | none =>
      rw [step_eq_skip_adxNaN cfg equity s nbars b ha (by omega)]
      exact hres
    | some a =>
      by_cases hth : a ≤ cfg.adx_threshold
      · rw [step_eq_skip_adxLow cfg equity s nbars b a ha hth (by omega)]
        exact hres
      · by_cases hcap : cfg.max_trades_per_day ≤ (resetToday s b).trades_today
        · rw [step_eq_skip_cap cfg equity s nbars b a ha hth (by omega) hcap]
          exact hres
        · rw [step_eq_core cfg equity s nbars b a ha (by omega) hth hcap]
          split
          · rcases flatBranch_cases cfg equity (resetToday s b) b with
              ⟨heq, -⟩ | ⟨heq, -⟩ | heq <;> rw [heq] <;> exact hres
          · rw [openBranch_today]
            exact hres

lemma step_trades_eq (cfg : TCfg) (equity : ℚ) (s : StratState) (nbars : ℕ)
    (b : Bar) :
    (step cfg equity s nbars b).trades_today =
      baseCount s b + (if entered cfg equity s nbars b = true then 1 else 0) := by
  unfold entered
  have hskip : ∀ h : step cfg equity s nbars b = resetToday s b,
      (step cfg equity s nbars b).trades_today =
        baseCount s b +
          (if (decide (s.position = 0) &&
              decide ((step cfg equity s nbars b).position ≠ 0)) = true
            then 1 else 0) := by
    intro h
    rw [h, resetToday_trades, resetToday_position]
    by_cases hp : s.position = 0
    · simp [hp]
    · simp [hp]
  rcases Nat.lt_or_ge nbars cfg.min_bars with hmin | hmin
  · exact hskip (step_eq_skip_min cfg equity s nbars b hmin)
  · cases ha : b.adx with
    | none => exact hskip (step_eq_skip_adxNaN cfg equity s nbars b ha (by omega))
    | some a =>
      by_cases hth : a ≤ cfg.adx_threshold
      · exact hskip (step_eq_skip_adxLow cfg equity s nbars b a ha hth (by omega))
      · by_cases hcap : cfg.max_trades_per_day ≤ (resetToday s b).trades_today
        · exact hskip (step_eq_skip_cap cfg equity s nbars b a ha hth (by omega) hcap)
        · have hcore := step_eq_core cfg equity s nbars b a ha (by omega) hth hcap
          by_cases hp0 : (resetToday s b).position = 0
          · have hstep : step cfg equity s nbars b =
                flatBranch cfg equity (resetToday s b) b := by
              rw [hcore, if_pos hp0]
            have hp0' : s.position = 0 := by
              rw [← resetToday_position s b]
              exact hp0
            rcases flatBranch_cases cfg equity (resetToday s b) b with
              ⟨heq, hsz, -⟩ | ⟨heq, hsz, -⟩ | heq
            · have ht : (step cfg equity s nbars b).trades_today =
                  (resetToday s b).trades_today + 1 := by
                rw [hstep, heq]
                rfl
              have hpos : (step cfg equity s nbars b).position ≠ 0 := by
                rw [hstep, heq]
                show determine_size cfg equity b.close (b.swing_low.getD 0) ≠ 0
                omega
              rw [ht, resetToday_trades]
              simp [hp0', hpos]
            · have ht : (step cfg equity s nbars b).trades_today =
                  (resetToday s b).trades_today + 1 := by
                rw [hstep, heq]
                rfl
              have hpos : (step cfg equity s nbars b).position ≠ 0 := by
                rw [hstep, heq]
                show -determine_size cfg equity b.close (b.swing_high.getD 0) ≠ 0
                omega
              rw [ht, resetToday_trades]
              simp [hp0', hpos]
            · have ht : (step cfg equity s nbars b).trades_today =
                  (resetToday s b).trades_today := by
                rw [hstep, heq]
              have hpos : (step cfg equity s nbars b).position = 0 := by
                rw [hstep, heq]
                show (resetToday s b).position = 0
                exact hp0
              rw [ht, resetToday_trades]
              simp [hpos]
          · have hstep : step cfg equity s nbars b =
                openBranch cfg (resetToday s b) b := by
              rw [hcore, if_neg hp0]
            have hp0' : ¬ s.position = 0 := by
              rw [← resetToday_position s b]
              exact hp0
            rw [hstep, openBranch_trades, resetToday_trades]
            simp [hp0']

lemma entered_cap (cfg : TCfg) (equity : ℚ) (s : StratState) (nbars : ℕ) (b : Bar)
    (h : entered cfg equity s nbars b = true) :
    baseCount s b < cfg.max_trades_per_day := by
  by_contra hcap
  push_neg at hcap
  simp only [entered, Bool.and_eq_true, decide_eq_true_eq] at h
  obtain ⟨hp0, hne⟩ := h
  have hsp : (step cfg equity s nbars b).position = s.position := by
    rcases Nat.lt_or_ge nbars cfg.min_bars with hmin | hmin
    · rw [step_eq_skip_min cfg equity s nbars b hmin, resetToday_position]
    · cases ha : b.adx with
      | none =>
        rw [step_eq_skip_adxNaN cfg equity s nbars b ha (by omega),
          resetToday_position]
      | some a =>
        by_cases hth : a ≤ cfg.adx_threshold
        · rw [step_eq_skip_adxLow cfg equity s nbars b a ha hth (by omega),
            resetToday_position]
        · rw [step_eq_skip_cap cfg equity s nbars b a ha hth (by omega)
            (by rw [resetToday_trades]; exact hcap), resetToday_position]
  rw [hsp, hp0] at hne
  exact hne rfl

lemma entriesOn_zero (cfg : TCfg) (equity : ℚ) (d : ℕ) :
    ∀ bars (s : StratState) (n : ℕ), (∀ x ∈ bars, x.date ≠ d) →
      entriesOn cfg equity d s n bars = 0 := by
  intro bars
  induction bars with
  | nil =>
    intro s n _
    rfl
  | cons b bs ih =>
    intro s n h
    have hnd : ¬ (b.date = d ∧ entered cfg equity s (n + 1) b = true) := by
      rintro ⟨hd, -⟩
      exact h b (List.mem_cons_self b bs) hd
    simp only [entriesOn]
    rw [if_neg hnd, ih _ _ (fun x hx => h x (List.mem_cons_of_mem b hx))]

lemma entriesOn_le (cfg : TCfg) (equity : ℚ) (d : ℕ) :
    ∀ bars (s : StratState) (n : ℕ),
      List.Pairwise (fun x y : Bar => x.date ≤ y.date) bars →
      (∀ d0, s.today = some d0 → ∀ x ∈ bars, d0 ≤ x.date) →
      (s.today = some d → s.trades_today ≤ cfg.max_trades_per_day) →
      entriesOn cfg equity d s n bars +
          (if s.today = some d then s.trades_today else 0) ≤
        cfg.max_trades_per_day := by
  intro bars
  induction bars with
  | nil =>
    intro s n _ _ hcap
    by_cases h : s.today = some d
    · have := hcap h
      simp only [entriesOn, if_pos h]
      omega
    · simp [entriesOn, if_neg h]
  | cons b bs ih =>
    intro s n hsort hfut hcap
    obtain ⟨hhead, htail⟩ := List.pairwise_cons.mp hsort
    have htoday' : (step cfg equity s (n + 1) b).today = some b.date :=
      step_today cfg equity s (n + 1) b
    have htr := step_trades_eq cfg equity s (n + 1) b
    have hfut' : ∀ d0, (step cfg equity s (n + 1) b).today = some d0 →
        ∀ x ∈ bs, d0 ≤ x.date := by
      intro d0 hd0 x hx
      rw [htoday'] at hd0
      injection hd0 with hd0
      rw [← hd0]
      exact hhead x hx
    by_cases hbd : b.date = d
    · have hbase_le : baseCount s b ≤ cfg.max_trades_per_day := by
        unfold baseCount
        split
        · rename_i h
          exact hcap (by rw [h, hbd])
        · omega
      have hcap' : (step cfg equity s (n + 1) b).today = some d →
          (step cfg equity s (n + 1) b).trades_today ≤ cfg.max_trades_per_day := by
        intro _
        rw [htr]
        by_cases hent : entered cfg equity s (n + 1) b = true
        · have := entered_cap cfg equity s (n + 1) b hent
          rw [if_pos hent]
          omega
        · rw [if_neg hent]
          omega
      have hih := ih (step cfg equity s (n + 1) b) (n + 1) htail hfut' hcap'
      rw [htoday', hbd, if_pos rfl, htr] at hih
      have hbase_eq : (if s.today = some d then s.trades_today else 0) =
          baseCount s b := by
        unfold baseCount
        rw [hbd]
      simp only [entriesOn]
      rw [hbase_eq]
      by_cases hent : entered cfg equity s (n + 1) b = true
      · rw [if_pos ⟨hbd, hent⟩]
        rw [if_pos hent] at hih
        omega
      · rw [if_neg (by rintro ⟨-, hh⟩; exact hent hh)]
        rw [if_neg hent] at hih
        omega
    · simp only [entriesOn]
      rw [if_neg (by rintro ⟨hh, -⟩; exact hbd hh)]
      by_cases hsd : s.today = some d
      · have hdlt : d < b.date := by
          have := hfut d hsd b (List.mem_cons_self b bs)
          omega
        have hzero : entriesOn cfg equity d (step cfg equity s (n + 1) b)
            (n + 1) bs = 0 := by
          apply entriesOn_zero
          intro x hx
          have := hhead x hx
          omega
        have := hcap hsd
        rw [hzero, if_pos hsd]
        omega
      · have hcap' : (step cfg equity s (n + 1) b).today = some d →
            (step cfg equity s (n + 1) b).trades_today ≤
              cfg.max_trades_per_day := by
          intro hh
          rw [htoday'] at hh
          injection hh with hh
          exact absurd hh hbd
        have hih := ih (step cfg equity s (n + 1) b) (n + 1) htail hfut' hcap'
        rw [htoday'] at hih
        rw [if_neg (by simpa using hbd)] at hih
        rw [if_neg hsd]
        omega

/-- C8: along any date-sorted bar sequence, the number of entries opened on
any trading date is at most `max_trades_per_day`; the daily counter is reset
to 0 whenever the bar's date differs from the last seen date and incremented
exactly once per entry; and once the counter has reached the cap no entry is
taken. -/
theorem C8_daily_cap (cfg : TCfg) (equity : ℚ) (bars : List Bar) (d : ℕ)
    (hsort : List.Pairwise (fun x y : Bar => x.date ≤ y.date) bars) :
    entriesOn cfg equity d initState 0 bars ≤ cfg.max_trades_per_day ∧
    (∀ s nbars b, (step cfg equity s nbars b).trades_today =
      baseCount s b + (if entered cfg equity s nbars b = true then 1 else 0)) ∧
    (∀ s nbars b, cfg.max_trades_per_day ≤ baseCount s b →
      entered cfg equity s nbars b = false) := by
  refine ⟨?_, fun s nbars b => step_trades_eq cfg equity s nbars b,
    fun s nbars b hc => ?_⟩
  · have h := entriesOn_le cfg equity d bars initState 0 hsort
      (by intro d0 hd0; exact absurd hd0 (by simp [initState]))
      (by intro hd0; exact absurd hd0 (by simp [initState]))
    rw [if_neg (by simp [initState])] at h
    omega
  · by_contra hne
    rw [Bool.not_eq_false] at hne
    have := entered_cap cfg equity s nbars b hne
    omega

/-- Witness for C8 at a concrete input. -/
theorem C8_daily_cap_witness :
    entriesOn C2cfg 1000 0 initState 0 [] ≤ C2cfg.max_trades_per_day :=
  (C8_daily_cap C2cfg 1000 [] 0 List.Pairwise.nil).1

/-! ### Stop-monotonicity lemmas (C3) -/

lemma oLT_some_right {x : Option ℚ} {c : ℚ} (h : oLT x (some c) = true) :
    ∃ v, x = some v ∧ v < c := by
  cases x with
  | none => simp [oLT] at h
  | some v => exact ⟨v, rfl, by simpa [oLT] using h⟩

lemma oLT_some_left {x : Option ℚ} {c : ℚ} (h : oLT (some c) x = true) :
    ∃ v, x = some v ∧ c < v := by
  cases x with
  | none => simp [oLT] at h
  | some v => exact ⟨v, rfl, by simpa [oLT] using h⟩

lemma beLong_pos (s : StratState) (c : ℚ)
    (h : c ≥ s.entry_price.getD 0 + (2 / 5) * s.entry_risk.getD 0 ∧
      s.breakeven_active = false) :
    beLong s c = { s with stop_price := s.entry_price, breakeven_active := true } := by
  unfold beLong
  rw [if_pos h]

lemma beLong_neg (s : StratState) (c : ℚ)
    (h : ¬ (c ≥ s.entry_price.getD 0 + (2 / 5) * s.entry_risk.getD 0 ∧
      s.breakeven_active = false)) :
    beLong s c = s := by
  unfold beLong
  rw [if_neg h]

lemma beShort_pos (s : StratState) (c : ℚ)
    (h : c ≤ s.entry_price.getD 0 - (2 / 5) * s.entry_risk.getD 0 ∧
      s.breakeven_active = false) :
    beShort s c = { s with stop_price := s.entry_price, breakeven_active := true } := by
  unfold beShort
  rw [if_pos h]

lemma beShort_neg (s : StratState) (c : ℚ)
    (h : ¬ (c ≤ s.entry_price.getD 0 - (2 / 5) * s.entry_risk.getD 0 ∧
      s.breakeven_active = false)) :
    beShort s c = s := by
  unfold beShort
  rw [if_neg h]

lemma trailLong_none (cfg : TCfg) (s : StratState) (h : s.initial_atr = none) :
    trailLong cfg s = s := by
  unfold trailLong
  rw [h]

lemma trailLong_some_lt (cfg : TCfg) (s : StratState) (a : ℚ)
    (h : s.initial_atr = some a)
    (hlt : s.stop_price.getD 0 <
      s.highest_since_entry.getD 0 - a * cfg.trailing_atr_mult) :
    trailLong cfg s = { s with stop_price := some (s.highest_since_entry.getD 0 - a * cfg.trailing_atr_mult) } := by
  unfold trailLong
  rw [h]
  dsimp only
  rw [if_pos hlt]

lemma trailLong_some_ge (cfg : TCfg) (s : StratState) (a : ℚ)
    (h : s.initial_atr = some a)
    (hge : ¬ s.stop_price.getD 0 <
      s.highest_since_entry.getD 0 - a * cfg.trailing_atr_mult) :
    trailLong cfg s = s := by
  unfold trailLong
  rw [h]
  dsimp only
  rw [if_neg hge]

lemma trailShort_none (cfg : TCfg) (s : StratState) (h : s.initial_atr = none) :
    trailShort cfg s = s := by
  unfold trailShort
  rw [h]

lemma trailShort_some_lt (cfg : TCfg) (s : StratState) (a : ℚ)
    (h : s.initial_atr = some a)
    (hlt : s.lowest_since_entry.getD 0 + a * cfg.trailing_atr_mult <
      s.stop_price.getD 0) :
    trailShort cfg s = { s with stop_price := some (s.lowest_since_entry.getD 0 + a * cfg.trailing_atr_mult) } := by
  unfold trailShort
  rw [h]
  dsimp only
  rw [if_pos hlt]

lemma trailShort_some_ge (cfg : TCfg) (s : StratState) (a : ℚ)
    (h : s.initial_atr = some a)
    (hge : ¬ s.lowest_since_entry.getD 0 + a * cfg.trailing_atr_mult <
      s.stop_price.getD 0) :
    trailShort cfg s = s := by
  unfold trailShort
  rw [h]
  dsimp only
  rw [if_neg hge]

lemma tpLong_cases (s : StratState) (h : ℚ) :
    tpLong s h = s ∨ ∃ z, tpLong s h = { s with exit_order := some z } := by
  unfold tpLong
  split
  · exact Or.inl rfl
  · split
    · dsimp only
      split
      · exact Or.inr ⟨_, rfl⟩
      · exact Or.inl rfl
    · exact Or.inl rfl

lemma tpShort_cases (s : StratState) (l : ℚ) :
    tpShort s l = s ∨ ∃ z, tpShort s l = { s with exit_order := some z } := by
  unfold tpShort
  split
  · exact Or.inl rfl
  · split
    · dsimp only
      split
      · exact Or.inr ⟨_, rfl⟩
      · exact Or.inl rfl
    · exact Or.inl rfl

lemma slLong_cases (s : StratState) (c : ℚ) :
    slLong s c = s ∨
      slLong s c = { s with position := 0, close_reason := "Stop loss LONG" } := by
  unfold slLong
  split
  · exact Or.inr rfl
  · exact Or.inl rfl

lemma slShort_cases (s : StratState) (c : ℚ) :
    slShort s c = s ∨
      slShort s c = { s with position := 0, close_reason := "Stop loss SHORT" } := by
  unfold slShort
  split
  · exact Or.inr rfl
  · exact Or.inl rfl

lemma slLong_stop (s : StratState) (c : ℚ) : (slLong s c).stop_price = s.stop_price := by
  unfold slLong
  split <;> rfl

lemma slShort_stop (s : StratState) (c : ℚ) :
    (slShort s c).stop_price = s.stop_price := by
  unfold slShort
  split <;> rfl

lemma trendbreakCheck_stop (s : StratState) (b : Bar) :
    (trendbreakCheck s b).stop_price = s.stop_price := by
  unfold trendbreakCheck
  split
  · rfl
  · split <;> rfl

lemma StopInv_closed (cfg : TCfg) (m : StratState) (h0 : m.position = 0) :
    StopInv cfg m := by
  refine ⟨fun hne => absurd h0 hne, fun hlt => ?_, fun hlt => ?_⟩ <;>
    · rw [h0] at hlt
      exact absurd hlt (by norm_num)

lemma resetToday_StopInv (cfg : TCfg) (s : StratState) (b : Bar)
    (h : StopInv cfg s) : StopInv cfg (resetToday s b) := by
  unfold resetToday
  split
  · exact h
  · exact h

lemma resetToday_stop (s : StratState) (b : Bar) :
    (resetToday s b).stop_price = s.stop_price := by
  unfold resetToday
  split <;> rfl

lemma beLong_entry (s : StratState) (c : ℚ) :
    (beLong s c).entry_price = s.entry_price := by
  unfold beLong
  split <;> rfl

lemma beLong_atr (s : StratState) (c : ℚ) :
    (beLong s c).initial_atr = s.initial_atr := by
  unfold beLong
  split <;> rfl

lemma beLong_highest (s : StratState) (c : ℚ) :
    (beLong s c).highest_since_entry = s.highest_since_entry := by
  unfold beLong
  split <;> rfl

lemma trailLong_entry (cfg : TCfg) (s : StratState) :
    (trailLong cfg s).entry_price = s.entry_price := by
  unfold trailLong
  split
  · rfl
  · dsimp only
    split <;> rfl

lemma trailLong_atr (cfg : TCfg) (s : StratState) :
    (trailLong cfg s).initial_atr = s.initial_atr := by
  unfold trailLong
  split
  · rfl
  · dsimp only
    split <;> rfl

lemma trailLong_highest (cfg : TCfg) (s : StratState) :
    (trailLong cfg s).highest_since_entry = s.highest_since_entry := by
  unfold trailLong
  split
  · rfl
  · dsimp only
    split <;> rfl

lemma manageLong_stop_mono (cfg : TCfg) (s : StratState) (b : Bar)
    (hInv : StopInv cfg s) (hpos : 0 < s.position) (hh : 0 < b.high)
    (ep sp : ℚ) (hep : s.entry_price = some ep) (hsp : s.stop_price = some sp) :
    ∃ sp2, (manageLong cfg s b).stop_price = some sp2 ∧ sp ≤ sp2 ∧
      StopInv cfg (manageLong cfg s b) := by
  have hbaseH : hbase s ≤ max (hbase s) b.high := le_max_left _ _
  have hHpos : (0 : ℚ) < max (hbase s) b.high := lt_of_lt_of_le hh (le_max_right _ _)
  have hH : max (hbase s) b.high ≠ 0 := ne_of_gt hHpos
  set H := max (hbase s) b.high with hHdef
  set s1 : StratState := { s with highest_since_entry := some H } with hs1
  have hman : manageLong cfg s b =
      slLong (tpLong (trailLong cfg (beLong s1 b.close)) b.high) b.close := rfl
  obtain ⟨sp2, hstop3, hle, hcase⟩ :
      ∃ sp2, (trailLong cfg (beLong s1 b.close)).stop_price = some sp2 ∧
        sp ≤ sp2 ∧ (ep < sp2 →
          ∃ a, s.initial_atr = some a ∧ sp2 + a * cfg.trailing_atr_mult ≤ H) := by
    by_cases hbe : b.close ≥ s1.entry_price.getD 0 + (2 / 5) * s1.entry_risk.getD 0 ∧
        s1.breakeven_active = false
    · rw [beLong_pos s1 b.close hbe]
      set s2 : StratState :=
        { s1 with stop_price := s1.entry_price, breakeven_active := true } with hs2
      rcases Option.eq_none_or_eq_some s.initial_atr with hatr | ⟨a, hatr⟩
      · rw [trailLong_none cfg s2 hatr]
        refine ⟨ep, ?_, ?_, ?_⟩
        · show s.entry_price = some ep
          exact hep
        · rcases le_or_lt sp ep with h | h
          · exact h
          · obtain ⟨a, ha, -⟩ := hInv.2.1 hpos sp ep hsp hep h
            rw [hatr] at ha
            simp at ha
        · intro hlt
          exact absurd hlt (lt_irrefl ep)
      · by_cases htr : ep < H - a * cfg.trailing_atr_mult
        · have hcond : s2.stop_price.getD 0 <
              s2.highest_since_entry.getD 0 - a * cfg.trailing_atr_mult := by
            show s.entry_price.getD 0 < (some H).getD 0 - a * cfg.trailing_atr_mult
            rw [hep]
            simpa using htr
          rw [trailLong_some_lt cfg s2 a hatr hcond]
          refine ⟨H - a * cfg.trailing_atr_mult, rfl, ?_, ?_⟩
          · rcases le_or_lt sp ep with h | h
            · linarith
            · obtain ⟨a', ha', hle'⟩ := hInv.2.1 hpos sp ep hsp hep h
              rw [hatr] at ha'
              injection ha' with ha'
              subst ha'
              linarith
          · intro hlt
            exact ⟨a, hatr, by linarith⟩
        · have hcond : ¬ s2.stop_price.getD 0 <
              s2.highest_since_entry.getD 0 - a * cfg.trailing_atr_mult := by
            show ¬ s.entry_price.getD 0 < (some H).getD 0 - a * cfg.trailing_atr_mult
            rw [hep]
            simpa using htr
          rw [trailLong_some_ge cfg s2 a hatr hcond]
          refine ⟨ep, ?_, ?_, ?_⟩
          · show s.entry_price = some ep
            exact hep
          · rcases le_or_lt sp ep with h | h
            · exact h
            · obtain ⟨a', ha', hle'⟩ := hInv.2.1 hpos sp ep hsp hep h
              rw [hatr] at ha'
              injection ha' with ha'
              subst ha'
              push_neg at htr
              linarith
          · intro hlt
            exact absurd hlt (lt_irrefl ep)
    · rw [beLong_neg s1 b.close hbe]
      rcases Option.eq_none_or_eq_some s.initial_atr with hatr | ⟨a, hatr⟩
      · rw [trailLong_none cfg s1 hatr]
        refine ⟨sp, ?_, le_refl sp, ?_⟩
        · show s.stop_price = some sp
          exact hsp
        · intro hlt
          obtain ⟨a, ha, hle'⟩ := hInv.2.1 hpos sp ep hsp hep hlt
          exact ⟨a, ha, le_trans hle' hbaseH⟩
      · by_cases htr : sp < H - a * cfg.trailing_atr_mult
        · have hcond : s1.stop_price.getD 0 <
              s1.highest_since_entry.getD 0 - a * cfg.trailing_atr_mult := by
            show s.stop_price.getD 0 < (some H).getD 0 - a * cfg.trailing_atr_mult
            rw [hsp]
            simpa using htr
          rw [trailLong_some_lt cfg s1 a hatr hcond]
          refine ⟨H - a * cfg.trailing_atr_mult, rfl, le_of_lt htr, ?_⟩
          intro hlt
          exact ⟨a, hatr, by linarith⟩
        · have hcond : ¬ s1.stop_price.getD 0 <
              s1.highest_since_entry.getD 0 - a * cfg.trailing_atr_mult := by
            show ¬ s.stop_price.getD 0 < (some H).getD 0 - a * cfg.trailing_atr_mult
            rw [hsp]
            simpa using htr
          rw [trailLong_some_ge cfg s1 a hatr hcond]
          refine ⟨sp, ?_, le_refl sp, ?_⟩
          · show s.stop_price = some sp
            exact hsp
          · intro hlt
            obtain ⟨a', ha', hle'⟩ := hInv.2.1 hpos sp ep hsp hep hlt
            exact ⟨a', ha', le_trans hle' hbaseH⟩
  have hXe : (trailLong cfg (beLong s1 b.close)).entry_price = s.entry_price := by
    rw [trailLong_entry, beLong_entry]
  have hXa : (trailLong cfg (beLong s1 b.close)).initial_atr = s.initial_atr := by
    rw [trailLong_atr, beLong_atr]
  have hXp : (trailLong cfg (beLong s1 b.close)).position = s.position := by
    rw [trailLong_position, beLong_position]
  have hXh : (trailLong cfg (beLong s1 b.close)).highest_since_entry = some H := by
    rw [trailLong_highest, beLong_highest]
  have hXbase : hbase (trailLong cfg (beLong s1 b.close)) = H := by
    unfold hbase
    rw [hXh]
    dsimp only
    rw [if_neg hH]
  have hInvX : StopInv cfg (trailLong cfg (beLong s1 b.close)) := by
    refine ⟨?_, ?_, ?_⟩
    · intro _ e he
      rw [hXe] at he
      exact hInv.1 (by omega) e he
    · intro _ sp0 ep0 hsp0 hep0 hlt
      rw [hstop3] at hsp0
      injection hsp0 with hsp0
      rw [hXe, hep] at hep0
      injection hep0 with hep0
      subst hsp0
      subst hep0
      obtain ⟨a, ha, hle'⟩ := hcase hlt
      refine ⟨a, ?_, ?_⟩
      · rw [hXa]
        exact ha
      · rw [hXbase]
        exact hle'
    · intro hneg
      rw [hXp] at hneg
      exact absurd hneg (by omega)
  refine ⟨sp2, ?_, hle, ?_⟩
  · rw [hman, slLong_stop, tpLong_stop_price]
    exact hstop3
  · rcases slLong_cases (tpLong (trailLong cfg (beLong s1 b.close)) b.high)
      b.close with hsl | hsl
    · rw [hman, hsl]
      rcases tpLong_cases (trailLong cfg (beLong s1 b.close)) b.high with
        htp | ⟨z, htp⟩ <;> rw [htp]
      · exact hInvX
      · exact hInvX
    · rw [hman, hsl]
      exact StopInv_closed cfg _ rfl

lemma beShort_entry (s : StratState) (c : ℚ) :
    (beShort s c).entry_price = s.entry_price := by
  unfold beShort
  split <;> rfl

lemma beShort_atr (s : StratState) (c : ℚ) :
    (beShort s c).initial_atr = s.initial_atr := by
  unfold beShort
  split <;> rfl

lemma beShort_lowest (s : StratState) (c : ℚ) :
    (beShort s c).lowest_since_entry = s.lowest_since_entry := by
  unfold beShort
  split <;> rfl

lemma trailShort_entry (cfg : TCfg) (s : StratState) :
    (trailShort cfg s).entry_price = s.entry_price := by
  unfold trailShort
  split
  · rfl
  · dsimp only
    split <;> rfl

lemma trailShort_atr (cfg : TCfg) (s : StratState) :
    (trailShort cfg s).initial_atr = s.initial_atr := by
  unfold trailShort
  split
  · rfl
  · dsimp only
    split <;> rfl

lemma trailShort_lowest (cfg : TCfg) (s : StratState) :
    (trailShort cfg s).lowest_since_entry = s.lowest_since_entry := by
  unfold trailShort
  split
  · rfl
  · dsimp only
    split <;> rfl

lemma manageShort_stop_mono (cfg : TCfg) (s : StratState) (b : Bar)
    (hInv : StopInv cfg s) (hpos : s.position < 0) (hl : 0 < b.low)
    (ep sp : ℚ) (hep : s.entry_price = some ep) (hsp : s.stop_price = some sp) :
    ∃ sp2, (manageShort cfg s b).stop_price = some sp2 ∧ sp2 ≤ sp ∧
      StopInv cfg (manageShort cfg s b) := by
  have hep0 : 0 < ep := hInv.1 (by omega) ep hep
  have hlbase : lbase s ≠ 0 := by
    unfold lbase
    rcases Option.eq_none_or_eq_some s.lowest_since_entry with hlo | ⟨l, hlo⟩ <;>
      rw [hlo]
    · dsimp only
      rw [hep]
      simpa using ne_of_gt hep0
    · dsimp only
      split
      · rw [hep]
        simpa using ne_of_gt hep0
      · rename_i hne
        exact hne
  have hbaseL : min (lbase s) b.low ≤ lbase s := min_le_left _ _
  have hL : min (lbase s) b.low ≠ 0 := by
    rcases min_cases (lbase s) b.low with ⟨hm, -⟩ | ⟨hm, -⟩ <;> rw [hm]
    · exact hlbase
    · exact ne_of_gt hl
  set L := min (lbase s) b.low with hLdef
  set s1 : StratState := { s with lowest_since_entry := some L } with hs1
  have hman : manageShort cfg s b =
      slShort (tpShort (trailShort cfg (beShort s1 b.close)) b.low) b.close := rfl
  obtain ⟨sp2, hstop3, hle, hcase⟩ :
      ∃ sp2, (trailShort cfg (beShort s1 b.close)).stop_price = some sp2 ∧
        sp2 ≤ sp ∧ (sp2 < ep →
          ∃ a, s.initial_atr = some a ∧ L + a * cfg.trailing_atr_mult ≤ sp2) := by
    by_cases hbe : b.close ≤ s1.entry_price.getD 0 - (2 / 5) * s1.entry_risk.getD 0 ∧
        s1.breakeven_active = false
    · rw [beShort_pos s1 b.close hbe]
      set s2 : StratState :=
        { s1 with stop_price := s1.entry_price, breakeven_active := true } with hs2
      rcases Option.eq_none_or_eq_some s.initial_atr with hatr | ⟨a, hatr⟩
      · rw [trailShort_none cfg s2 hatr]
        refine ⟨ep, ?_, ?_, ?_⟩
        · show s.entry_price = some ep
          exact hep
        · rcases le_or_lt ep sp with h | h
          · exact h
          · obtain ⟨a, ha, -⟩ := hInv.2.2 hpos sp ep hsp hep h
            rw [hatr] at ha
            simp at ha
        · intro hlt
          exact absurd hlt (lt_irrefl ep)
      · by_cases htr : L + a * cfg.trailing_atr_mult < ep
        · have hcond : s2.lowest_since_entry.getD 0 + a * cfg.trailing_atr_mult <
              s2.stop_price.getD 0 := by
            show (some L).getD 0 + a * cfg.trailing_atr_mult < s.entry_price.getD 0
            rw [hep]
            simpa using htr
          rw [trailShort_some_lt cfg s2 a hatr hcond]
          refine ⟨L + a * cfg.trailing_atr_mult, rfl, ?_, ?_⟩
          · rcases le_or_lt ep sp with h | h
            · linarith
            · obtain ⟨a', ha', hle'⟩ := hInv.2.2 hpos sp ep hsp hep h
              rw [hatr] at ha'
              injection ha' with ha'
              subst ha'
              linarith
          · intro hlt
            exact ⟨a, hatr, by linarith⟩
        · have hcond : ¬ s2.lowest_since_entry.getD 0 + a * cfg.trailing_atr_mult <
              s2.stop_price.getD 0 := by
            show ¬ (some L).getD 0 + a * cfg.trailing_atr_mult < s.entry_price.getD 0
            rw [hep]
            simpa using htr
          rw [trailShort_some_ge cfg s2 a hatr hcond]
          refine ⟨ep, ?_, ?_, ?_⟩
          · show s.entry_price = some ep
            exact hep
          · rcases le_or_lt ep sp with h | h
            · exact h
            · obtain ⟨a', ha', hle'⟩ := hInv.2.2 hpos sp ep hsp hep h
              rw [hatr] at ha'
              injection ha' with ha'
              subst ha'
              push_neg at htr
              linarith
          · intro hlt
            exact absurd hlt (lt_irrefl ep)
    · rw [beShort_neg s1 b.close hbe]
      rcases Option.eq_none_or_eq_some s.initial_atr with hatr | ⟨a, hatr⟩
      · rw [trailShort_none cfg s1 hatr]
        refine ⟨sp, ?_, le_refl sp, ?_⟩
        · show s.stop_price = some sp
          exact hsp
        · intro hlt
          obtain ⟨a, ha, hle'⟩ := hInv.2.2 hpos sp ep hsp hep hlt
          exact ⟨a, ha, by linarith⟩
      · by_cases htr : L + a * cfg.trailing_atr_mult < sp
        · have hcond : s1.lowest_since_entry.getD 0 + a * cfg.trailing_atr_mult <
              s1.stop_price.getD 0 := by
            show (some L).getD 0 + a * cfg.trailing_atr_mult < s.stop_price.getD 0
            rw [hsp]
            simpa using htr
          rw [trailShort_some_lt cfg s1 a hatr hcond]
          refine ⟨L + a * cfg.trailing_atr_mult, rfl, le_of_lt htr, ?_⟩
          intro hlt
          exact ⟨a, hatr, le_refl _⟩
        · have hcond : ¬ s1.lowest_since_entry.getD 0 + a * cfg.trailing_atr_mult <
              s1.stop_price.getD 0 := by
            show ¬ (some L).getD 0 + a * cfg.trailing_atr_mult < s.stop_price.getD 0
            rw [hsp]
            simpa using htr
          rw [trailShort_some_ge cfg s1 a hatr hcond]
          refine ⟨sp, ?_, le_refl sp, ?_⟩
          · show s.stop_price = some sp
            exact hsp
          · intro hlt
            obtain ⟨a', ha', hle'⟩ := hInv.2.2 hpos sp ep hsp hep hlt
            exact ⟨a', ha', by linarith⟩
  have hXe : (trailShort cfg (beShort s1 b.close)).entry_price = s.entry_price := by
    rw [trailShort_entry, beShort_entry]
  have hXa : (trailShort cfg (beShort s1 b.close)).initial_atr = s.initial_atr := by
    rw [trailShort_atr, beShort_atr]
  have hXp : (trailShort cfg (beShort s1 b.close)).position = s.position := by
    rw [trailShort_position, beShort_position]
  have hXl : (trailShort cfg (beShort s1 b.close)).lowest_since_entry = some L := by
    rw [trailShort_lowest, beShort_lowest]
  have hXbase : lbase (trailShort cfg (beShort s1 b.close)) = L := by
    unfold lbase
    rw [hXl]
    dsimp only
    rw [if_neg hL]
  have hInvX : StopInv cfg (trailShort cfg (beShort s1 b.close)) := by
    refine ⟨?_, ?_, ?_⟩
    · intro _ e he
      rw [hXe] at he
      exact hInv.1 (by omega) e he
    · intro hposX
      rw [hXp] at hposX
      exact absurd hposX (by omega)
    · intro _ sp0 ep0 hsp0 hep0 hlt
      rw [hstop3] at hsp0
      injection hsp0 with hsp0
      rw [hXe, hep] at hep0
      injection hep0 with hep0
      subst hsp0
      subst hep0
      obtain ⟨a, ha, hle'⟩ := hcase hlt
      refine ⟨a, ?_, ?_⟩
      · rw [hXa]
        exact ha
      · rw [hXbase]
        exact hle'
  refine ⟨sp2, ?_, hle, ?_⟩
  · rw [hman, slShort_stop, tpShort_stop_price]
    exact hstop3
  · rcases slShort_cases (tpShort (trailShort cfg (beShort s1 b.close)) b.low)
      b.close with hsl | hsl
    · rw [hman, hsl]
      rcases tpShort_cases (trailShort cfg (beShort s1 b.close)) b.low with
        htp | ⟨z, htp⟩ <;> rw [htp]
      · exact hInvX
      · exact hInvX
    · rw [hman, hsl]
      exact StopInv_closed cfg _ rfl

lemma resetToday_entry (s : StratState) (b : Bar) :
    (resetToday s b).entry_price = s.entry_price := by
  unfold resetToday
  split <;> rfl

lemma trendbreakCheck_StopInv (cfg : TCfg) (m : StratState) (b : Bar)
    (h : StopInv cfg m) : StopInv cfg (trendbreakCheck m b) := by
  unfold trendbreakCheck
  split
  · exact StopInv_closed cfg _ rfl
  · split
    · exact StopInv_closed cfg _ rfl
    · exact h

lemma flatBranch_StopInv (cfg : TCfg) (equity : ℚ) (s : StratState) (b : Bar)
    (hInv : StopInv cfg s) (hc : 0 < b.close) :
    StopInv cfg (flatBranch cfg equity s b) := by
  rcases flatBranch_cases cfg equity s b with
    ⟨heq, hsz, hcond⟩ | ⟨heq, hsz, hcond⟩ | heq <;> rw [heq]
  · have hswing : ∃ v, b.swing_low = some v ∧ v < b.close := by
      have h2 := hcond
      simp only [longCond, Bool.and_eq_true] at h2
      exact oLT_some_right h2.2
    obtain ⟨sl, hsl, hlt⟩ := hswing
    refine ⟨?_, ?_, ?_⟩
    · intro _ e he
      have he' : some b.close = some e := he
      injection he' with he'
      rw [← he']
      exact hc
    · intro _ sp0 ep0 hsp0 hep0 hlt0
      have hsp0' : b.swing_low = some sp0 := hsp0
      rw [hsl] at hsp0'
      injection hsp0' with hsp0'
      have hep0' : some b.close = some ep0 := hep0
      injection hep0' with hep0'
      rw [← hsp0', ← hep0'] at hlt0
      exact absurd hlt0 (by linarith)
    · intro hneg
      have hneg' : determine_size cfg equity b.close (b.swing_low.getD 0) < 0 := hneg
      omega
  · have hswing : ∃ v, b.swing_high = some v ∧ b.close < v := by
      have h2 := hcond
      simp only [shortCond, Bool.and_eq_true] at h2
      exact oLT_some_left h2.2
    obtain ⟨sh, hsh, hlt⟩ := hswing
    refine ⟨?_, ?_, ?_⟩
    · intro _ e he
      have he' : some b.close = some e := he
      injection he' with he'
      rw [← he']
      exact hc
    · intro hpos0
      have hpos0' : (0 : ℤ) <
          -determine_size cfg equity b.close (b.swing_high.getD 0) := hpos0
      exact absurd hpos0' (by omega)
    · intro _ sp0 ep0 hsp0 hep0 hlt0
      have hsp0' : b.swing_high = some sp0 := hsp0
      rw [hsh] at hsp0'
      injection hsp0' with hsp0'
      have hep0' : some b.close = some ep0 := hep0
      injection hep0' with hep0'
      rw [← hsp0', ← hep0'] at hlt0
      exact absurd hlt0 (by linarith)
  · exact hInv

lemma step_shape (cfg : TCfg) (equity : ℚ) (s : StratState) (nbars : ℕ) (b : Bar) :
    step cfg equity s nbars b = resetToday s b ∨
    (step cfg equity s nbars b = flatBranch cfg equity (resetToday s b) b ∧
      (resetToday s b).position = 0) ∨
    (step cfg equity s nbars b = openBranch cfg (resetToday s b) b ∧
      (resetToday s b).position ≠ 0) := by
  rcases Nat.lt_or_ge nbars cfg.min_bars with hmin | hmin
  · exact Or.inl (step_eq_skip_min cfg equity s nbars b hmin)
  · cases ha : b.adx with
    | none => exact Or.inl (step_eq_skip_adxNaN cfg equity s nbars b ha (by omega))
    | some a =>
      by_cases hth : a ≤ cfg.adx_threshold
      · exact Or.inl (step_eq_skip_adxLow cfg equity s nbars b a ha hth (by omega))
      · by_cases hcap : cfg.max_trades_per_day ≤ (resetToday s b).trades_today
        · exact Or.inl
            (step_eq_skip_cap cfg equity s nbars b a ha hth (by omega) hcap)
        · by_cases hp0 : (resetToday s b).position = 0
          · refine Or.inr (Or.inl ⟨?_, hp0⟩)
            rw [step_eq_core cfg equity s nbars b a ha (by omega) hth hcap,
              if_pos hp0]
          · refine Or.inr (Or.inr ⟨?_, hp0⟩)
            rw [step_eq_core cfg equity s nbars b a ha (by omega) hth hcap,
              if_neg hp0]

/-- C3 (amended): for an open long the end-of-bar stop_price is non-decreasing
bar over bar (non-increasing for a short): an invariant-satisfying state steps
to a state whose stop never moved in the unfavorable direction, and the
invariant is preserved by every step.  Within a bar, however, the breakeven
update may transiently lower a trailing-raised stop to the entry price before
the same bar's trailing update restores it (see the counterexample). -/
theorem C3_stop_monotone (cfg : TCfg) (equity : ℚ) (s : StratState) (nbars : ℕ)
    (b : Bar) (hInv : StopInv cfg s)
    (hc : 0 < b.close) (hh : 0 < b.high) (hl : 0 < b.low) :
    (∀ ep sp, 0 < s.position → s.entry_price = some ep → s.stop_price = some sp →
      ∃ sp2, (step cfg equity s nbars b).stop_price = some sp2 ∧ sp ≤ sp2) ∧
    (∀ ep sp, s.position < 0 → s.entry_price = some ep → s.stop_price = some sp →
      ∃ sp2, (step cfg equity s nbars b).stop_price = some sp2 ∧ sp2 ≤ sp) ∧
    StopInv cfg (step cfg equity s nbars b) := by
  have hInv0 : StopInv cfg (resetToday s b) := resetToday_StopInv cfg s b hInv
  refine ⟨?_, ?_, ?_⟩
  · intro ep sp hpos hep hsp
    rcases step_shape cfg equity s nbars b with hst | ⟨hst, hp0⟩ | ⟨hst, hp0⟩
    · refine ⟨sp, ?_, le_refl sp⟩
      rw [hst, resetToday_stop]
      exact hsp
    · rw [resetToday_position] at hp0
      omega
    · rw [hst]
      unfold openBranch
      dsimp only
      by_cases hguard : (resetToday s b).entry_price = none ∨
          (resetToday s b).stop_price = none ∨ (resetToday s b).entry_risk = none
      · rw [if_pos hguard, trendbreakCheck_stop, resetToday_stop]
        exact ⟨sp, hsp, le_refl sp⟩
      · rw [if_neg hguard, if_pos (by rw [resetToday_position]; omega)]
        obtain ⟨sp2, h1, h2, -⟩ := manageLong_stop_mono cfg (resetToday s b) b
          hInv0 (by rw [resetToday_position]; omega) hh ep sp
          (by rw [resetToday_entry]; exact hep)
          (by rw [resetToday_stop]; exact hsp)
        refine ⟨sp2, ?_, h2⟩
        rw [trendbreakCheck_stop]
        exact h1
  · intro ep sp hpos hep hsp
    rcases step_shape cfg equity s nbars b with hst | ⟨hst, hp0⟩ | ⟨hst, hp0⟩
    · refine ⟨sp, ?_, le_refl sp⟩
      rw [hst, resetToday_stop]
      exact hsp
    · rw [resetToday_position] at hp0
      omega
    · rw [hst]
      unfold openBranch
      dsimp only
      by_cases hguard : (resetToday s b).entry_price = none ∨
          (resetToday s b).stop_price = none ∨ (resetToday s b).entry_risk = none
      · rw [if_pos hguard, trendbreakCheck_stop, resetToday_stop]
        exact ⟨sp, hsp, le_refl sp⟩
      · rw [if_neg hguard, if_neg (by rw [resetToday_position]; omega)]
        obtain ⟨sp2, h1, h2, -⟩ := manageShort_stop_mono cfg (resetToday s b) b
          hInv0 (by rw [resetToday_position]; omega) hl ep sp
          (by rw [resetToday_entry]; exact hep)
          (by rw [resetToday_stop]; exact hsp)
        refine ⟨sp2, ?_, h2⟩
        rw [trendbreakCheck_stop]
        exact h1
  · rcases step_shape cfg equity s nbars b with hst | ⟨hst, hp0⟩ | ⟨hst, hp0⟩ <;>
      rw [hst]
    · exact hInv0
    · exact flatBranch_StopInv cfg equity (resetToday s b) b hInv0 hc
    · unfold openBranch
      dsimp only
      by_cases hguard : (resetToday s b).entry_price = none ∨
          (resetToday s b).stop_price = none ∨ (resetToday s b).entry_risk = none
      · rw [if_pos hguard]
        exact trendbreakCheck_StopInv cfg _ b hInv0
      · rw [if_neg hguard]
        push_neg at hguard
        obtain ⟨hen, hsn, -⟩ := hguard
        obtain ⟨ep', hep'⟩ := Option.ne_none_iff_exists'.mp hen
        obtain ⟨sp', hsp'⟩ := Option.ne_none_iff_exists'.mp hsn
        rcases hp0.lt_or_lt with hq | hq
        · rw [if_neg (by omega)]
          obtain ⟨sp2, -, -, hInvX⟩ := manageShort_stop_mono cfg (resetToday s b) b
            hInv0 hq hl ep' sp' hep' hsp'
          exact trendbreakCheck_StopInv cfg _ b hInvX
        · rw [if_pos hq]
          obtain ⟨sp2, -, -, hInvX⟩ := manageLong_stop_mono cfg (resetToday s b) b
            hInv0 hq hh ep' sp' hep' hsp'
          exact trendbreakCheck_StopInv cfg _ b hInvX

/-- An open long whose stop was already raised above entry by the trailing
rule (entry 100, stop 102, risk 10, extreme 105, initial ATR 1), breakeven
not yet latched. -/
def C3state : StratState :=
  { today := some 0, trades_today := 1, entry_price := some 100
    stop_price := some 102, initial_atr := some 1, entry_risk := some 10
    tp_price := some 110, breakeven_active := false
    highest_since_entry := some 105, lowest_since_entry := none
    close_reason := "", exit_order := none, position := 3 }

/-- Counterexample to C3 as stated: on a bar closing at 104.5 (which is
`entry + 0.4R`, so breakeven fires) the breakeven update moves the stop of
`C3state` from 102 down to the entry price 100 — an update that moves the
stop in the unfavorable direction for a long. -/
theorem C3_counterexample :
    (beLong C3state (209 / 2)).stop_price = some 100 ∧
    C3state.stop_price = some 102 ∧ (100 : ℚ) < 102 ∧
    C3state.breakeven_active = false := by
  refine ⟨?_, rfl, by norm_num, rfl⟩
  unfold beLong
  rw [if_pos ⟨by norm_num [C3state], rfl⟩]
  rfl

/-- Witness for C3 (amended) at a concrete input. -/
theorem C3_stop_monotone_witness :
    ∃ sp2, (step C2cfg 1000 C3state 1
      { date := 0, close := 209 / 2, high := 105, low := 104
        gauss := some 5, gauss_prev := some 5, kijun := some 80
        vapi := some 1, vapi_prev := some 1, adx := some 30, smma := some 100
        atr := some 1, swing_low := some 85, swing_high := some 120 }).stop_price =
        some sp2 ∧ (102 : ℚ) ≤ sp2 := by
  refine (C3_stop_monotone C2cfg 1000 C3state 1 _ ?_ (by norm_num) (by norm_num)
    (by norm_num)).1 100 102 (by decide) rfl rfl
  refine ⟨?_, ?_, ?_⟩
  · intro _ e he
    injection he with he
    rw [← he]
    norm_num
  · intro _ sp0 ep0 hsp0 hep0 hlt
    injection hsp0 with hsp0
    injection hep0 with hep0
    refine ⟨1, rfl, ?_⟩
    rw [← hsp0]
    show (102 : ℚ) + 1 * C2cfg.trailing_atr_mult ≤ hbase C3state
    norm_num [C2cfg, hbase, C3state]
  · intro hneg
    exact absurd hneg (by decide)

end Trading
